import Mathlib

/-!
Verification development for the folderize media-archiving scripts.

The development shallowly embeds the relevant functions of the repository:
the EXIF-based filing-date resolver (`getExtendedFile`), the filing planner
and mover (`moveFiles`), the stability gate (`isFileStable`), the video
normalization engine (`convertVideoFiles` / `convertToH264Mp4`) and the
duplicate detector (`groupVideoFiles` / `findDuplicates` /
`deleteDuplicates`).

Conventions used throughout:
- JavaScript `Date` values in milliseconds are modelled as rationals
  (`Rat`), matching the float-valued `stats.*Ms` fields; `Math.floor`
  becomes `Rat.floor`.
- The filesystem is modelled as a partial map from paths to file records;
  directory creation (`mkdirSync`) touches no file entries, so it is a
  no-op on the map.
- External processes (ffprobe / ffmpeg) and fallible syscalls are modelled
  by oracles supplied as explicit parameters: probed codecs and durations,
  the encoder exit code, and success flags for copy / utimes / unlink /
  rename calls.
- A file path `dir/base.ext` is modelled structurally as the triple
  produced by Node path functions: `dirname`, `basename` without
  extension, and `extname` (including the leading dot).
-/

/-- Lower-casing of a string, modelling the JavaScript `toLowerCase()`
used by the scripts (the extensions involved are ASCII). -/
def jsToLowerCase (s : String) : String :=
  String.mk (s.toList.map Char.toLower)

/-- Node `path.extname` on a base name: the suffix starting at the last
dot, or the empty string when there is no dot or the only dot is the
leading character (hidden files such as `.DS_Store`). -/
def extname (s : String) : String :=
  let cs := s.toList
  match cs.reverse.findIdx? (fun c => c = '.') with
  | none => ""
  | some r =>
    let i := cs.length - 1 - r
    if i = 0 then "" else String.mk (cs.drop i)

namespace Utils

/-- `isFileStable` from `utils.js`: a file is stable when
`(Date.now() - stats.mtimeMs) / 1000 >= maxAgeSeconds`. -/
def isFileStable (nowMs mtimeMs : ℚ) (maxAgeSeconds : ℚ) : Bool :=
  decide (maxAgeSeconds ≤ (nowMs - mtimeMs) / 1000)

end Utils

namespace Folderize

/-- The `exifData.exif` fields read by `getExtendedFile`; `none` models an
absent property and `some ""` an empty string (both falsy under `||`). -/
structure ExifExif where
  CreateDate : Option String
  DateTimeOriginal : Option String
  DateTimeDigitized : Option String
deriving DecidableEq

/-- The `exifData.image` fields read by `getExtendedFile`. -/
structure ExifImage where
  ModifyDate : Option String
  CreateDate : Option String
deriving DecidableEq

/-- The parsed EXIF payload delivered to the `ExifImage` callback. -/
structure ExifData where
  exif : ExifExif
  image : ExifImage
deriving DecidableEq

/-- Outcome of the `new ExifImage(...)` call: either the callback received
an error (or the constructor threw), or it received parsed data. -/
inductive ExifRead where
  | failure
  | success (d : ExifData)

/-- A JavaScript date-like value: either an EXIF date string or the
filesystem `stats.birthtime` (epoch milliseconds). -/
inductive DateValue where
  | exifString (s : String)
  | birthtime (ms : Int)
deriving DecidableEq

/-- The fields of the object resolved by `getExtendedFile` that the rest
of the pipeline reads. -/
structure ExtendedFile where
  filingCreatedDate : DateValue
  filingDateSrc : String
  exifDataPresent : Bool
  errorInfoCount : Nat
deriving DecidableEq

/-- JavaScript `a || b` on possibly-absent strings: the empty string and
an absent property are falsy. -/
def jsOrStr : Option String → Option String → Option String
  | some s, b => if s = "" then b else some s
  | none, b => b

/-- `getExtendedFile` from `folderize.js` (the `utils.js` copy differs
only in swapping the last two fields of the precedence chain). The local
variable `filingCreatedDate` is initialised to `stats.birthtime`; the
callback assigns `updatedFile.filingCreatedDate = exifCreateDate || ...`
and sets `filingDateSrc` to `exif`, but the promise resolves
`{...updatedFile, filingCreatedDate}`, whose trailing shorthand property
overrides the spread with the local variable. The final record therefore
mirrors that override. -/
def getExtendedFile (birthtimeMs : Int) (exifRead : ExifRead) : ExtendedFile :=
  let filingCreatedDate := DateValue.birthtime birthtimeMs
  match exifRead with
  | .failure =>
      { filingCreatedDate := filingCreatedDate
        filingDateSrc := "file.createdAt"
        exifDataPresent := false
        errorInfoCount := 1 }
  | .success d =>
      let exifCreateDate :=
        jsOrStr d.exif.CreateDate (jsOrStr d.exif.DateTimeOriginal
          (jsOrStr d.exif.DateTimeDigitized
            (jsOrStr d.image.ModifyDate d.image.CreateDate)))
      let updatedFile : ExtendedFile :=
        { filingCreatedDate :=
            match exifCreateDate with
            | some s => DateValue.exifString s
            | none => DateValue.birthtime birthtimeMs
          filingDateSrc := if exifCreateDate.isSome then "exif" else "file.createdAt"
          exifDataPresent := true
          errorInfoCount := 0 }
      { updatedFile with filingCreatedDate := filingCreatedDate }

/-- A concrete EXIF payload with a readable capture-time field. -/
def sampleExif : ExifData :=
  { exif := { CreateDate := some "2020:05:01 10:00:00"
              DateTimeOriginal := none
              DateTimeDigitized := none }
    image := { ModifyDate := none, CreateDate := none } }

/-- The components of the `new Date(...)` built from `filingCreatedDate`
that `moveFiles` reads: `getFullYear()`, `getMonth()` (0-based), and the
day, which the planner ignores. -/
structure FilingDate where
  year : Int
  monthIdx : Nat
  day : Nat
deriving DecidableEq

/-- File stats carried along by the mover (float epoch milliseconds). -/
structure MStats where
  birthtimeMs : ℚ
  btimeMs : ℚ
  mtimeMs : ℚ
  atimeMs : ℚ
deriving DecidableEq

/-- One element of the `files` list of `moveFiles` after enrichment. -/
structure FileInfo where
  name : String
  path : String
  filingCreatedDate : FilingDate
  stats : MStats
deriving DecidableEq

/-- JavaScript `('0' + m).slice(-2)`: the last two characters. -/
def jsSliceNeg2 (s : String) : String :=
  String.mk (s.toList.drop (s.toList.length - 2))

/-- The month component `('0' + (filingDate.getMonth() + 1)).slice(-2)`
of the destination folder computed by `moveFiles`. -/
def monthString (d : FilingDate) : String :=
  jsSliceNeg2 ("0" ++ toString (d.monthIdx + 1))

/-- The destination folder
`_dstPath/{year}/{year}-{month}/` computed by `moveFiles`. -/
def dstFolderFor (dstPathArg : String) (d : FilingDate) : String :=
  dstPathArg ++ "/" ++ toString d.year ++ "/" ++ toString d.year ++ "-" ++
    monthString d ++ "/"

/-- One element of `filesForFiling` in `moveFiles`. -/
structure PlannedFile where
  name : String
  srcFilePath : String
  dstPath : String
  dstFilePath : String
  stats : MStats
deriving DecidableEq

/-- The per-file mapping of `moveFiles` producing the filing plan. -/
def toPlannedFile (dstPathArg : String) (f : FileInfo) : PlannedFile :=
  let dstFolder := dstFolderFor dstPathArg f.filingCreatedDate
  { name := f.name
    srcFilePath := f.path
    dstPath := dstFolder
    dstFilePath := dstFolder ++ f.name
    stats := f.stats }

/-- Two-digit zero-padded rendering of a month number, the `{month:02d}`
of the specification. -/
def pad2 (n : Nat) : String :=
  if n < 10 then "0" ++ toString n else toString n

/-- `IGNORED_FILES` from `folderize.js`. -/
def IGNORED_FILES : List String := [".DS_Store", "Thumbs.db"]

/-- `VIDEO_FILE_EXTENSIONS` from `folderize.js`. -/
def VIDEO_FILE_EXTENSIONS : List String :=
  [".mov", ".mp4", ".m4v", ".avi", ".wmv", ".flv", ".mkv", ".webm"]

/-- `ALLOWED_FILE_EXTENSIONS` from `folderize.js` (image extensions plus
the video extensions, lower-cased). -/
def ALLOWED_FILE_EXTENSIONS : List String :=
  ([".jpg", ".jpeg", ".gif", ".heic", ".raw", ".cr2", ".nef"] ++
    VIDEO_FILE_EXTENSIONS).map jsToLowerCase

/-- A file entry of the mover filesystem: abstract byte content plus the
timestamps visible through `utimes`. -/
structure MEntry where
  content : Nat
  btimeMs : ℚ
  mtimeMs : ℚ
  atimeMs : ℚ
deriving DecidableEq

/-- The mover filesystem: a partial map from string paths to entries. -/
def MFS := String → Option MEntry

/-- Point update of a mover filesystem. -/
def updateMFS (fs : MFS) (p : String) (v : Option MEntry) : MFS :=
  fun q => if q = p then v else fs q

/-- Success oracle for the fallible syscalls of the per-file move, plus
the clock stamps a fresh copy receives before `utimesSync` runs. -/
structure MoveOracle where
  copyOk : PlannedFile → Bool
  utimesOk : PlannedFile → Bool
  unlinkOk : PlannedFile → Bool
  nowBtimeMs : ℚ
  nowMtimeMs : ℚ
  nowAtimeMs : ℚ

/-- Per-file outcome reported by the move loop. -/
inductive MoveResult where
  | moved
  | errorMoving (reason : String)
deriving DecidableEq

/-- JavaScript `a || b` on numbers: `0` is falsy. Used for
`file.stats.birthtimeMs || file.stats.btimeMs`. -/
def jsOrNum (a b : ℚ) : ℚ :=
  if a = 0 then b else a

/-- The destination timestamps written by `utimesSync` in `moveFiles`:
`Math.floor` of the source stats. -/
def restoredEntry (srcContent : Nat) (st : MStats) : MEntry :=
  { content := srcContent
    btimeMs := ((jsOrNum st.birthtimeMs st.btimeMs).floor : ℚ)
    mtimeMs := (st.mtimeMs.floor : ℚ)
    atimeMs := (st.atimeMs.floor : ℚ) }

/-- The body of the `filesForFiling.forEach` loop in `moveFiles`:
ignored-name check, extension allow-list check, existing-destination
check, then `copyFileSync`, `utimesSync`, `unlinkSync`, each fallible.
The preceding `mkdirSync` only creates directories and leaves the file
map unchanged. -/
def moveOneFile (orc : MoveOracle) (fs : MFS) (f : PlannedFile) : MFS × MoveResult :=
  if f.name ∈ IGNORED_FILES then
    (fs, .errorMoving "file is in the ignored files list")
  else if jsToLowerCase (extname f.name) ∉ ALLOWED_FILE_EXTENSIONS then
    (fs, .errorMoving ("file extension " ++ jsToLowerCase (extname f.name) ++ " is ignored"))
  else if (fs f.dstFilePath).isSome then
    (fs, .errorMoving "destination already exists")
  else if orc.copyOk f = false then
    (fs, .errorMoving "copy failed")
  else
    match fs f.srcFilePath with
    | none => (fs, .errorMoving "copy failed")
    | some src =>
      let fs1 := updateMFS fs f.dstFilePath
        (some { content := src.content, btimeMs := orc.nowBtimeMs
                mtimeMs := orc.nowMtimeMs, atimeMs := orc.nowAtimeMs })
      if orc.utimesOk f = false then (fs1, .errorMoving "utimes failed")
      else
        let fs2 := updateMFS fs1 f.dstFilePath (some (restoredEntry src.content f.stats))
        if orc.unlinkOk f = false then (fs2, .errorMoving "unlink failed")
        else (updateMFS fs2 f.srcFilePath none, .moved)

/-- The whole move loop: every planned file is processed in order and
produces one outcome; no outcome aborts the batch. -/
def moveFiles (orc : MoveOracle) (fs : MFS) : List PlannedFile → MFS × List MoveResult
  | [] => (fs, [])
  | f :: rest =>
    let step := moveOneFile orc fs f
    let batch := moveFiles orc step.1 rest
    (batch.1, step.2 :: batch.2)

/-- A concrete move oracle where every syscall succeeds. -/
def allOkOracle : MoveOracle :=
  { copyOk := fun _ => true, utimesOk := fun _ => true, unlinkOk := fun _ => true
    nowBtimeMs := 0, nowMtimeMs := 0, nowAtimeMs := 0 }

/-- A concrete move oracle where `copyFileSync` fails. -/
def copyFailOracle : MoveOracle :=
  { allOkOracle with copyOk := fun _ => false }

/-- A concrete planned file used by the mover witnesses. -/
def witFile : PlannedFile :=
  { name := "a.jpg", srcFilePath := "/in/a.jpg"
    dstPath := "/archive/2023/2023-01/"
    dstFilePath := "/archive/2023/2023-01/a.jpg"
    stats := ⟨1, 1, 1, 1⟩ }

/-- A filesystem holding both the source and the destination of
`witFile`. -/
def witFsBoth : MFS := fun p =>
  if p = "/archive/2023/2023-01/a.jpg" then some ⟨7, 0, 0, 0⟩
  else if p = "/in/a.jpg" then some ⟨9, 1, 1, 1⟩ else none

/-- A filesystem holding only the source of `witFile`. -/
def witFsSrc : MFS := fun p =>
  if p = "/in/a.jpg" then some ⟨9, 1, 1, 1⟩ else none

end Folderize

/-- A file path as decomposed by the Node path functions used in the
converter and the duplicate detector: `path.dirname`, the base name
without extension, and `path.extname` (with the leading dot). -/
structure VPath where
  dir : String
  base : String
  ext : String
deriving DecidableEq, Repr

namespace Config

/-- `IGNORED_FILES` from `config.js`. -/
def IGNORED_FILES : List String := [".DS_Store", "Thumbs.db"]

/-- `VIDEO_FILE_EXTENSIONS` from `config.js`. -/
def VIDEO_FILE_EXTENSIONS : List String :=
  ([".mov", ".mp2", ".mpg", ".mpeg", ".mp4", ".m4v", ".avi", ".wmv",
    ".flv", ".mkv", ".webm"]).map jsToLowerCase

end Config

namespace Convert

/-- A file entry of the converter filesystem: abstract content, the
timestamps visible through `utimes`, and whether `stat.isFile()` holds. -/
structure Entry where
  content : Nat
  btimeMs : ℚ
  mtimeMs : ℚ
  atimeMs : ℚ
  regular : Bool
deriving DecidableEq

/-- The converter filesystem: a partial map from paths to entries. -/
def CFS := VPath → Option Entry

/-- Point update of a converter filesystem. -/
def updateCFS (fs : CFS) (p : VPath) (v : Option Entry) : CFS :=
  fun q => if q = p then v else fs q

/-- Observable external-process and syscall events of a conversion run. -/
inductive ConvEvent where
  | probeDuration (p : VPath)
  | probeCodec (p : VPath)
  | encode (inp outp : VPath)
  | renameCall (inp outp : VPath)
deriving DecidableEq

/-- Whether an event is an encoder invocation on the given input file. -/
def ConvEvent.isEncodeOf : ConvEvent → VPath → Bool
  | .encode i _, f => decide (i = f)
  | _, _ => false

/-- Errors surfaced by `convertToH264Mp4` (promise rejections) and the
loop (a `statSync` throw). -/
inductive ConvErr where
  | ffmpegExit (code : Int)
  | deleteOriginalFailure
  | statFailure
deriving DecidableEq

/-- The per-file decision logged by `convertVideoFiles`. -/
inductive ConvOutcome where
  | skippedExists
  | renamed
  | renameFailure
  | converted
  | convertFailure (e : ConvErr)
deriving DecidableEq

/-- One per-file log entry of a conversion run. -/
structure ConvReport where
  file : VPath
  outcome : ConvOutcome
deriving DecidableEq

/-- Oracle for the external processes and fallible syscalls of the
converter: `ffprobe` results, the `ffmpeg` exit code, whether a failed
encode leaves a partial output and with which entry, the entry a
successful encode produces, and success flags for `utimesSync`,
`unlinkSync` and `renameSync`. -/
structure ConvOracle where
  codecOf : VPath → Option String
  durationOf : VPath → Option ℚ
  exitCode : VPath → Int
  partialLeft : VPath → Bool
  partialEntry : VPath → Entry
  encodedEntry : VPath → Entry
  utimesOk : VPath → Bool
  unlinkOk : VPath → Bool
  renameOk : VPath → Bool

/-- The timestamps written onto the output by `utimesSync`:
`Math.floor` of the original stats. -/
def restoreUtimes (e orig : Entry) : Entry :=
  { e with btimeMs := (orig.btimeMs.floor : ℚ)
           mtimeMs := (orig.mtimeMs.floor : ℚ)
           atimeMs := (orig.atimeMs.floor : ℚ) }

/-- `convertToH264Mp4` from the file-list-driven converter: probe the
duration, read the original stats, run `ffmpeg`; on non-zero exit reject
with the exit code (a partial output may remain); on success the output
is written, its timestamps restored when `utimesSync` succeeds (a
failure there only warns), and, when `deleteOriginal` is set, the input
is unlinked, a failed unlink rejecting the promise. -/
def convertToH264Mp4 (orc : ConvOracle) (fs : CFS) (inPath outPath : VPath)
    (deleteOriginal : Bool) : CFS × List ConvEvent × Except ConvErr Bool :=
  let evs := [ConvEvent.probeDuration inPath, ConvEvent.encode inPath outPath]
  if orc.exitCode inPath = 0 then
    let fs1 := updateCFS fs outPath (some (orc.encodedEntry inPath))
    let fs2 :=
      match fs inPath with
      | some orig =>
        if orc.utimesOk outPath then
          updateCFS fs1 outPath (some (restoreUtimes (orc.encodedEntry inPath) orig))
        else fs1
      | none => fs1
    if deleteOriginal then
      if orc.unlinkOk inPath then (updateCFS fs2 inPath none, evs, .ok true)
      else (fs2, evs, .error .deleteOriginalFailure)
    else (fs2, evs, .ok true)
  else
    ((if orc.partialLeft inPath then
        updateCFS fs outPath (some (orc.partialEntry inPath)) else fs),
      evs, .error (.ffmpegExit (orc.exitCode inPath)))

/-- The output path of a file: same directory (the output subdirectory
`join(inputDir, relative(inputDir, fileDir))` is the file directory
itself), same base name, `.mp4` extension. -/
def outPathOf (f : VPath) : VPath := ⟨f.dir, f.base, ".mp4"⟩

/-- The `continue` guard of the loop:
`!VIDEO_FILE_EXTENSIONS.includes(ext) && ext !== '.mov' && ext !== '.mp4'`. -/
def skipsExtensionCheck (ext : String) : Bool :=
  (!(Config.VIDEO_FILE_EXTENSIONS.contains ext)) && (ext != ".mov") && (ext != ".mp4")

/-- Result of one loop iteration: continue to the next file, or a thrown
error that aborts the whole run (`statSync` throw, or a conversion error
under `stopOnError`). -/
inductive StepOut where
  | cont (fs : CFS) (rep : Option ConvReport) (evs : List ConvEvent)
  | thrown (fs : CFS) (rep : Option ConvReport) (evs : List ConvEvent) (e : ConvErr)

/-- The filesystem after one iteration. -/
def StepOut.fsOut : StepOut → CFS
  | .cont fs _ _ => fs
  | .thrown fs _ _ _ => fs

/-- The report of one iteration. -/
def StepOut.repOut : StepOut → Option ConvReport
  | .cont _ r _ => r
  | .thrown _ r _ _ => r

/-- The events of one iteration. -/
def StepOut.evsOut : StepOut → List ConvEvent
  | .cont _ _ e => e
  | .thrown _ _ e _ => e

/-- The `await convertToH264Mp4 ...` call of the loop together with its
`catch` block: on error, remove any output file present at the output
path (the unlink itself may fail and then only warns), and rethrow when
`stopOnError` is set. `pre` carries the probe events already emitted for
this file. -/
def convertAndCleanup (orc : ConvOracle) (stopOnError deleteOriginals : Bool)
    (fs : CFS) (f outPath : VPath) (pre : List ConvEvent) : StepOut :=
  let r := convertToH264Mp4 orc fs f outPath deleteOriginals
  match r.2.2 with
  | .ok _ => .cont r.1 (some ⟨f, .converted⟩) (pre ++ r.2.1)
  | .error e =>
    let fs2 :=
      if (r.1 outPath).isSome then
        (if orc.unlinkOk outPath then updateCFS r.1 outPath none else r.1)
      else r.1
    if stopOnError then .thrown fs2 (some ⟨f, .convertFailure e⟩) (pre ++ r.2.1) e
    else .cont fs2 (some ⟨f, .convertFailure e⟩) (pre ++ r.2.1)

/-- The body of the `for (const fileInfo of videoFiles)` loop of the
file-list-driven `convertVideoFiles`: `statSync` (a missing file throws
out of the loop), skip non-regular files, skip non-video extensions,
skip when the output path exists, rename an already-H.264 `.mp4` into
place (probing the codec first), and otherwise convert. -/
def processOne (orc : ConvOracle) (stopOnError deleteOriginals : Bool)
    (fs : CFS) (f : VPath) : StepOut :=
  match fs f with
  | none => .thrown fs none [] .statFailure
  | some entry =>
    if entry.regular = false then .cont fs none []
    else if skipsExtensionCheck (jsToLowerCase f.ext) then .cont fs none []
    else if (fs (outPathOf f)).isSome then .cont fs (some ⟨f, .skippedExists⟩) []
    else if jsToLowerCase f.ext = ".mp4" then
      match orc.codecOf f with
      | some c =>
        if c = "h264" then
          if orc.renameOk f then
            .cont (updateCFS (updateCFS fs (outPathOf f) (some entry)) f none)
              (some ⟨f, .renamed⟩) [.probeCodec f, .renameCall f (outPathOf f)]
          else .cont fs (some ⟨f, .renameFailure⟩) [.probeCodec f]
        else convertAndCleanup orc stopOnError deleteOriginals fs f (outPathOf f)
          [.probeCodec f]
      | none => convertAndCleanup orc stopOnError deleteOriginals fs f (outPathOf f)
          [.probeCodec f]
    else convertAndCleanup orc stopOnError deleteOriginals fs f (outPathOf f) []

/-- The observable result of a whole conversion run. -/
structure RunOut where
  fs : CFS
  reports : List ConvReport
  events : List ConvEvent
  aborted : Option ConvErr

/-- The file-list-driven `convertVideoFiles`: process the files in order;
a thrown iteration aborts the run, leaving the remaining files
unprocessed. -/
def convertVideoFiles (orc : ConvOracle) (stopOnError deleteOriginals : Bool)
    (fs : CFS) : List VPath → RunOut
  | [] => ⟨fs, [], [], none⟩
  | f :: rest =>
    match processOne orc stopOnError deleteOriginals fs f with
    | .cont fs1 rep evs =>
      let r := convertVideoFiles orc stopOnError deleteOriginals fs1 rest
      ⟨r.fs, rep.toList ++ r.reports, evs ++ r.events, r.aborted⟩
    | .thrown fs1 rep evs e => ⟨fs1, rep.toList, evs, some e⟩

end Convert

/-- The thrown error of one iteration, if any. -/
def Convert.StepOut.errOut : Convert.StepOut → Option Convert.ConvErr
  | .cont _ _ _ => none
  | .thrown _ _ _ e => some e

namespace Convert

/-- A concrete `.mov` input used in the converter witnesses. -/
def cWitMov : VPath := ⟨"/v", "a", ".mov"⟩

/-- A concrete `.MP4` input (upper-case extension, so its output path
differs from it) used in the converter witnesses. -/
def cWitMp4Upper : VPath := ⟨"/v", "clip", ".MP4"⟩

/-- A concrete regular-file entry. -/
def cWitEntry : Entry := ⟨3, 10, 20, 30, true⟩

/-- A filesystem holding only the `.mov` input. -/
def cWitFsMov : CFS := fun p => if p = cWitMov then some cWitEntry else none

/-- A filesystem holding only the `.MP4` input. -/
def cWitFsRen : CFS := fun p => if p = cWitMp4Upper then some cWitEntry else none

/-- A filesystem holding the `.mov` input and its already-converted
output. -/
def cWitFsBoth : CFS := fun p =>
  if p = cWitMov then some cWitEntry
  else if p = (⟨"/v", "a", ".mp4"⟩ : VPath) then some ⟨4, 0, 0, 0, true⟩
  else none

/-- An oracle whose encoder always fails with exit code 1, leaving a
partial output file. -/
def cWitOracleFail : ConvOracle :=
  { codecOf := fun _ => some "hevc", durationOf := fun _ => some 10
    exitCode := fun _ => 1, partialLeft := fun _ => true
    partialEntry := fun _ => ⟨9, 0, 0, 0, true⟩
    encodedEntry := fun _ => ⟨8, 0, 0, 0, true⟩
    utimesOk := fun _ => true, unlinkOk := fun _ => true
    renameOk := fun _ => true }

/-- An oracle probing every file as `h264` with a succeeding encoder. -/
def cWitOracleH264 : ConvOracle :=
  { cWitOracleFail with codecOf := fun _ => some "h264", exitCode := fun _ => 0 }

end Convert

namespace Dedupe

/-- `DURATION_TOLERANCE_SECONDS` from `dedupe-videos.js`. -/
def DURATION_TOLERANCE_SECONDS : ℚ := 1

/-- The grouping key `path.join(dir, baseName.toLowerCase())`, kept as
the pair of directory and lower-cased base name. -/
def groupKey (p : VPath) : String × String := (p.dir, jsToLowerCase p.base)

/-- A duplicate group: `{ mp4: filePath | null, others: [...] }`. -/
structure Group where
  mp4 : Option VPath
  others : List VPath
deriving DecidableEq, Repr

/-- The group a fresh key starts from. -/
def emptyGroup : Group := ⟨none, []⟩

/-- Adding one file to its group: an `.mp4` (case-insensitive) overwrites
the `mp4` slot, anything else is appended to `others`. -/
def updGroup (g : Group) (p : VPath) : Group :=
  if jsToLowerCase p.ext = ".mp4" then { g with mp4 := some p }
  else { g with others := g.others ++ [p] }

/-- One step of building the group map: update the entry with the file
key in place, or append a fresh entry at the end (JavaScript `Map`
preserves insertion order). -/
def addToGroups : List ((String × String) × Group) → VPath →
    List ((String × String) × Group)
  | [], p => [(groupKey p, updGroup emptyGroup p)]
  | (k, g) :: rest, p =>
    if k = groupKey p then (k, updGroup g p) :: rest
    else (k, g) :: addToGroups rest p

/-- `groupVideoFiles` from `dedupe-videos.js`. -/
def groupVideoFiles (files : List VPath) : List ((String × String) × Group) :=
  files.foldl addToGroups []

/-- `Map.get`: the group stored at a key. -/
def findInGroups (gs : List ((String × String) × Group)) (k : String × String) :
    Option Group :=
  (gs.find? (fun e => decide (e.1 = k))).map (fun e => e.2)

/-- One element of the `duplicates` array of `findDuplicates`. -/
structure DupEntry where
  path : VPath
  mp4Path : VPath
  duration : ℚ
  mp4Duration : ℚ
deriving DecidableEq, Repr

/-- One KEPT log line of `findDuplicates`: a group member outside the
tolerance, reported with its duration delta. -/
structure KeptEntry where
  path : VPath
  duration : ℚ
  mp4Duration : ℚ
  diff : ℚ
deriving DecidableEq, Repr

/-- JavaScript `Math.abs` on the rational durations. -/
def mathAbs (q : ℚ) : ℚ := if q < 0 then -q else q

/-- The inner loop of `findDuplicates` over the non-MP4 members of one
group: probe each duration, on failure either throw (stop-on-error) or
skip the member, otherwise file it as a duplicate (difference within
tolerance) or as a kept near-miss. -/
def probeOthers (probe : VPath → Option ℚ) (stopOnError : Bool) (m : VPath)
    (md : ℚ) : List VPath → Except String (List DupEntry × List KeptEntry)
  | [] => .ok ([], [])
  | o :: os =>
    match probe o with
    | none =>
      if stopOnError then .error "Failed to get duration"
      else probeOthers probe stopOnError m md os
    | some od =>
      match probeOthers probe stopOnError m md os with
      | .error e => .error e
      | .ok (ds, ks) =>
        if Dedupe.mathAbs (md - od) ≤ DURATION_TOLERANCE_SECONDS then
          .ok (⟨o, m, od, md⟩ :: ds, ks)
        else .ok (ds, ⟨o, od, md, Dedupe.mathAbs (md - od)⟩ :: ks)

/-- The outer loop of `findDuplicates` over the candidate groups: probe
the MP4 duration, on failure either throw (stop-on-error) or skip the
group, otherwise process the other members. -/
def processGroups (probe : VPath → Option ℚ) (stopOnError : Bool) :
    List ((String × String) × Group) →
    Except String (List DupEntry × List KeptEntry)
  | [] => .ok ([], [])
  | (_, g) :: gs =>
    match g.mp4 with
    | none => processGroups probe stopOnError gs
    | some m =>
      match probe m with
      | none =>
        if stopOnError then .error "Failed to get duration"
        else processGroups probe stopOnError gs
      | some md =>
        match probeOthers probe stopOnError m md g.others with
        | .error e => .error e
        | .ok (ds, ks) =>
          match processGroups probe stopOnError gs with
          | .error e => .error e
          | .ok (ds2, ks2) => .ok (ds ++ ds2, ks ++ ks2)

/-- `findDuplicates` from `dedupe-videos.js`: group the files, keep the
groups with a (truthy) MP4 slot and at least one other member, and scan
them; the returned pair also carries the KEPT report lines. -/
def findDuplicates (files : List VPath) (probe : VPath → Option ℚ)
    (stopOnError : Bool) : Except String (List DupEntry × List KeptEntry) :=
  processGroups probe stopOnError
    ((groupVideoFiles files).filter
      (fun e => e.2.mp4.isSome && !(e.2.others.isEmpty)))

/-- The dedupe filesystem: a partial map from paths to contents. -/
def DFS := VPath → Option Nat

/-- Point update of a dedupe filesystem. -/
def updateDFS (fs : DFS) (p : VPath) (v : Option Nat) : DFS :=
  fun q => if q = p then v else fs q

/-- `deleteDuplicates` from `dedupe-videos.js`: unlink each duplicate
(a missing file or a denied unlink counts as a failure), returning the
final filesystem with the deleted and failed counts. -/
def deleteDuplicates (unlinkOk : VPath → Bool) (fs : DFS) :
    List DupEntry → DFS × Nat × Nat
  | [] => (fs, 0, 0)
  | d :: ds =>
    if ((fs d.path).isSome && unlinkOk d.path) = true then
      let r := deleteDuplicates unlinkOk (updateDFS fs d.path none) ds
      (r.1, r.2.1 + 1, r.2.2)
    else
      let r := deleteDuplicates unlinkOk fs ds
      (r.1, r.2.1, r.2.2 + 1)

/-- The deletion phase of `dedupeVideoFiles`: in dry-run mode nothing is
deleted, otherwise the duplicates are unlinked. -/
def dedupeApply (dryRun : Bool) (unlinkOk : VPath → Bool) (fs : DFS)
    (dups : List DupEntry) : DFS :=
  if dryRun then fs else (deleteDuplicates unlinkOk fs dups).1

/-- Specification-side view: the non-MP4 members of the group of key
`k`, in scan order. -/
def otherMembers (files : List VPath) (k : String × String) : List VPath :=
  files.filter (fun p => decide (groupKey p = k ∧ jsToLowerCase p.ext ≠ ".mp4"))

/-- Specification-side view: the MP4-extension members of the group of
key `k`, in scan order. -/
def mp4Members (files : List VPath) (k : String × String) : List VPath :=
  files.filter (fun p => decide (groupKey p = k ∧ jsToLowerCase p.ext = ".mp4"))

/-- One step of computing the last-scanned MP4 member of a group. -/
def lastMp4Step (k : String × String) (a : Option VPath) (p : VPath) :
    Option VPath :=
  if groupKey p = k ∧ jsToLowerCase p.ext = ".mp4" then some p else a

/-- Specification-side view: the last-scanned MP4 member of the group of
key `k` (the member the code keeps in the `mp4` slot). -/
def lastMp4 (files : List VPath) (k : String × String) : Option VPath :=
  files.foldl (lastMp4Step k) none

/-- Left-biased choice on options. -/
def optOr {α : Type} : Option α → Option α → Option α
  | some a, _ => some a
  | none, b => b

/-- One step of computing the group stored at key `k`. -/
def stepG (k : String × String) (og : Option Group) (p : VPath) : Option Group :=
  if groupKey p = k then some (updGroup (og.getD emptyGroup) p) else og

/-- The group stored at key `k` after scanning the files. -/
def groupAt (files : List VPath) (k : String × String) : Option Group :=
  files.foldl (stepG k) none

/-- The claim-side candidate condition of C2 as frozen: the group has
exactly one MP4-extension member and at least one other member, the file
is one of the other members, both durations probe successfully, and the
difference is within tolerance. -/
def claimCandidate (files : List VPath) (probe : VPath → Option ℚ)
    (f : VPath) : Prop :=
  (mp4Members files (groupKey f)).length = 1 ∧
  otherMembers files (groupKey f) ≠ [] ∧
  f ∈ otherMembers files (groupKey f) ∧
  ∃ m ∈ mp4Members files (groupKey f), ∃ md fd : ℚ,
    probe m = some md ∧ probe f = some fd ∧
    Dedupe.mathAbs (md - fd) ≤ DURATION_TOLERANCE_SECONDS

/-- Counterexample inputs to C2 as frozen: two `.mp4`-extension siblings
(differing in case) and one `.mov` sibling, all probing to 10 seconds. -/
def exA : VPath := ⟨"d", "a", ".mp4"⟩

/-- Second MP4 member of the counterexample group. -/
def exB : VPath := ⟨"d", "A", ".MP4"⟩

/-- The non-MP4 member of the counterexample group. -/
def exC : VPath := ⟨"d", "a", ".mov"⟩

/-- The counterexample file list. -/
def exFiles : List VPath := [exA, exB, exC]

/-- The counterexample probe: every file lasts 10 seconds. -/
def exProbe : VPath → Option ℚ := fun _ => some 10

/-- Witness inputs: one `.mp4` and one `.mov` sibling. -/
def exM : VPath := ⟨"d", "v", ".mp4"⟩

/-- The `.mov` sibling of the witness inputs. -/
def exO : VPath := ⟨"d", "v", ".mov"⟩

/-- The witness file list. -/
def exWitFiles : List VPath := [exM, exO]

/-- A witness filesystem holding both files. -/
def exWitFs : DFS := fun q =>
  if q = exM then some 5 else if q = exO then some 6 else none

end Dedupe

/-- For a valid month index (0-11), the code month component equals the
zero-padded two-digit month, and has length two. -/
theorem monthString_eq_pad2 (m : Nat) (h : m < 12) :
    Folderize.jsSliceNeg2 ("0" ++ toString (m + 1)) = Folderize.pad2 (m + 1) ∧
    (Folderize.jsSliceNeg2 ("0" ++ toString (m + 1))).length = 2 := by
  interval_cases m <;> exact ⟨rfl, rfl⟩

/-- C9: the Stability Gate reports a file stable exactly when its
last-modified time is at least the threshold in the past; a file modified
2 seconds ago with a 5-second threshold is unstable, one modified 10
seconds ago is stable. -/
theorem c9_stability_gate (nowMs mtimeMs threshold t0 : ℚ) :
    (Utils.isFileStable nowMs mtimeMs threshold = true ↔
      threshold * 1000 ≤ nowMs - mtimeMs) ∧
    Utils.isFileStable (t0 + 2000) t0 5 = false ∧
    Utils.isFileStable (t0 + 10000) t0 5 = true := by
  refine ⟨?_, ?_, ?_⟩
  · unfold Utils.isFileStable
    rw [decide_eq_true_iff]
    rw [le_div_iff₀ (by norm_num : (0:ℚ) < 1000)]
  · unfold Utils.isFileStable
    rw [decide_eq_false_iff_not]
    intro hc
    rw [le_div_iff₀ (by norm_num : (0:ℚ) < 1000)] at hc
    have : t0 + 2000 - t0 = 2000 := by ring
    rw [this] at hc
    norm_num at hc
  · unfold Utils.isFileStable
    rw [decide_eq_true_iff]
    rw [le_div_iff₀ (by norm_num : (0:ℚ) < 1000)]
    have : t0 + 10000 - t0 = 10000 := by ring
    rw [this]
    norm_num

/-- C1: evaluation of the resolver at a file whose EXIF capture time is
readable. The code marks `filingDateSrc = "exif"` yet resolves
`filingCreatedDate` to the filesystem birth time, because the local
variable shadows the EXIF value in the resolved object; the
no-metadata fallback half of the claim does hold. -/
theorem c1_exif_date_discarded :
    (Folderize.getExtendedFile 1715000000000
        (.success Folderize.sampleExif)).filingDateSrc = "exif" ∧
    (Folderize.getExtendedFile 1715000000000
        (.success Folderize.sampleExif)).filingCreatedDate =
      Folderize.DateValue.birthtime 1715000000000 ∧
    (Folderize.getExtendedFile 1715000000000 .failure).filingCreatedDate =
      Folderize.DateValue.birthtime 1715000000000 ∧
    (Folderize.getExtendedFile 1715000000000 .failure).filingDateSrc =
      "file.createdAt" :=
  ⟨rfl, rfl, rfl, rfl⟩

/-- C3: the planner destination directory is
`{archiveRoot}/{year}/{year}-{month:02d}/`, it depends only on the filing
date year and month and the archive root, and recomputation on identical
inputs is identical. -/
theorem c3_filing_plan_destination (dstPathArg : String) (f g : Folderize.FileInfo)
    (hm : f.filingCreatedDate.monthIdx < 12)
    (hy : f.filingCreatedDate.year = g.filingCreatedDate.year)
    (hmi : f.filingCreatedDate.monthIdx = g.filingCreatedDate.monthIdx) :
    (Folderize.toPlannedFile dstPathArg f).dstPath =
      dstPathArg ++ "/" ++ toString f.filingCreatedDate.year ++ "/" ++
        toString f.filingCreatedDate.year ++ "-" ++
        Folderize.pad2 (f.filingCreatedDate.monthIdx + 1) ++ "/" ∧
    (Folderize.monthString f.filingCreatedDate).length = 2 ∧
    (Folderize.toPlannedFile dstPathArg f).dstPath =
      (Folderize.toPlannedFile dstPathArg g).dstPath ∧
    Folderize.toPlannedFile dstPathArg f = Folderize.toPlannedFile dstPathArg f := by
  obtain ⟨hp, hl⟩ := monthString_eq_pad2 f.filingCreatedDate.monthIdx hm
  refine ⟨?_, ?_, ?_, rfl⟩
  · show Folderize.dstFolderFor dstPathArg f.filingCreatedDate = _
    unfold Folderize.dstFolderFor
    rw [show Folderize.monthString f.filingCreatedDate =
        Folderize.pad2 (f.filingCreatedDate.monthIdx + 1) from hp]
  · exact hl
  · show Folderize.dstFolderFor dstPathArg f.filingCreatedDate =
      Folderize.dstFolderFor dstPathArg g.filingCreatedDate
    unfold Folderize.dstFolderFor Folderize.monthString
    rw [hy, hmi]

/-- Witness for C3 at a concrete archive root and two files sharing year
and month. -/
theorem c3_filing_plan_destination_witness :
    (Folderize.toPlannedFile "/archive"
        ⟨"a.jpg", "/in/a.jpg", ⟨2023, 0, 5⟩, ⟨0, 0, 0, 0⟩⟩).dstPath =
      "/archive" ++ "/" ++ toString (2023 : Int) ++ "/" ++
        toString (2023 : Int) ++ "-" ++ Folderize.pad2 (0 + 1) ++ "/" ∧
    (Folderize.monthString ⟨2023, 0, 5⟩).length = 2 ∧
    (Folderize.toPlannedFile "/archive"
        ⟨"a.jpg", "/in/a.jpg", ⟨2023, 0, 5⟩, ⟨0, 0, 0, 0⟩⟩).dstPath =
      (Folderize.toPlannedFile "/archive"
        ⟨"b.mov", "/in/b.mov", ⟨2023, 0, 28⟩, ⟨1, 1, 1, 1⟩⟩).dstPath ∧
    Folderize.toPlannedFile "/archive"
        ⟨"a.jpg", "/in/a.jpg", ⟨2023, 0, 5⟩, ⟨0, 0, 0, 0⟩⟩ =
      Folderize.toPlannedFile "/archive"
        ⟨"a.jpg", "/in/a.jpg", ⟨2023, 0, 5⟩, ⟨0, 0, 0, 0⟩⟩ :=
  c3_filing_plan_destination "/archive"
    ⟨"a.jpg", "/in/a.jpg", ⟨2023, 0, 5⟩, ⟨0, 0, 0, 0⟩⟩
    ⟨"b.mov", "/in/b.mov", ⟨2023, 0, 28⟩, ⟨1, 1, 1, 1⟩⟩
    (by norm_num) rfl rfl

/-- C4: when the destination path already exists the mover leaves the
file map untouched (no copy, no timestamp write, no source deletion),
does not report a move, reports the distinct existing-destination skip
once the file passes the name and extension checks, and the batch
continues with the remaining files from the unchanged state. -/
theorem c4_no_overwrite (orc : Folderize.MoveOracle) (fs : Folderize.MFS)
    (f : Folderize.PlannedFile) (rest : List Folderize.PlannedFile)
    (hdst : (fs f.dstFilePath).isSome = true) :
    (Folderize.moveOneFile orc fs f).1 = fs ∧
    (Folderize.moveOneFile orc fs f).2 ≠ .moved ∧
    (f.name ∉ Folderize.IGNORED_FILES →
      jsToLowerCase (extname f.name) ∈ Folderize.ALLOWED_FILE_EXTENSIONS →
      (Folderize.moveOneFile orc fs f).2 =
        .errorMoving "destination already exists") ∧
    (Folderize.moveFiles orc fs (f :: rest)).2 =
      (Folderize.moveOneFile orc fs f).2 :: (Folderize.moveFiles orc fs rest).2 ∧
    (Folderize.moveFiles orc fs (f :: rest)).1 = (Folderize.moveFiles orc fs rest).1 := by
  have hstep : (Folderize.moveOneFile orc fs f).1 = fs ∧
      (Folderize.moveOneFile orc fs f).2 ≠ .moved ∧
      (f.name ∉ Folderize.IGNORED_FILES →
        jsToLowerCase (extname f.name) ∈ Folderize.ALLOWED_FILE_EXTENSIONS →
        (Folderize.moveOneFile orc fs f).2 =
          .errorMoving "destination already exists") := by
    unfold Folderize.moveOneFile
    by_cases h1 : f.name ∈ Folderize.IGNORED_FILES
    · simp [h1]
    · by_cases h2 : jsToLowerCase (extname f.name) ∈ Folderize.ALLOWED_FILE_EXTENSIONS
      · simp [h1, h2, hdst]
      · simp [h1, h2]
  refine ⟨hstep.1, hstep.2.1, hstep.2.2, ?_, ?_⟩
  · simp only [Folderize.moveFiles]
    rw [hstep.1]
  · simp only [Folderize.moveFiles]
    rw [hstep.1]

/-- Witness for C4 at a concrete file whose destination already exists. -/
theorem c4_no_overwrite_witness :
    (Folderize.moveOneFile Folderize.allOkOracle Folderize.witFsBoth
        Folderize.witFile).1 = Folderize.witFsBoth ∧
    (Folderize.moveOneFile Folderize.allOkOracle Folderize.witFsBoth
        Folderize.witFile).2 ≠ .moved ∧
    (Folderize.witFile.name ∉ Folderize.IGNORED_FILES →
      jsToLowerCase (extname Folderize.witFile.name) ∈ Folderize.ALLOWED_FILE_EXTENSIONS →
      (Folderize.moveOneFile Folderize.allOkOracle Folderize.witFsBoth
        Folderize.witFile).2 = .errorMoving "destination already exists") ∧
    (Folderize.moveFiles Folderize.allOkOracle Folderize.witFsBoth
        [Folderize.witFile]).2 =
      (Folderize.moveOneFile Folderize.allOkOracle Folderize.witFsBoth
        Folderize.witFile).2 ::
        (Folderize.moveFiles Folderize.allOkOracle Folderize.witFsBoth []).2 ∧
    (Folderize.moveFiles Folderize.allOkOracle Folderize.witFsBoth
        [Folderize.witFile]).1 =
      (Folderize.moveFiles Folderize.allOkOracle Folderize.witFsBoth []).1 :=
  c4_no_overwrite Folderize.allOkOracle Folderize.witFsBoth Folderize.witFile []
    (by decide)

/-- C5: the mover deletes the source only after the byte copy has
completed (a deleted source implies the destination holds the copied
content with restored timestamps, and the file was reported moved); if
the copy or the timestamp restore fails the source entry is unchanged
and no move is reported; and the batch always continues with the
remaining files. -/
theorem c5_source_deleted_only_after_copy (orc : Folderize.MoveOracle)
    (fs : Folderize.MFS) (f : Folderize.PlannedFile)
    (rest : List Folderize.PlannedFile) (src : Folderize.MEntry)
    (hsrc : fs f.srcFilePath = some src) :
    ((Folderize.moveOneFile orc fs f).1 f.srcFilePath = none →
      (Folderize.moveOneFile orc fs f).2 = .moved ∧
      (Folderize.moveOneFile orc fs f).1 f.dstFilePath =
        some (Folderize.restoredEntry src.content f.stats)) ∧
    ((orc.copyOk f = false ∨ orc.utimesOk f = false) →
      (Folderize.moveOneFile orc fs f).1 f.srcFilePath = some src ∧
      (Folderize.moveOneFile orc fs f).2 ≠ .moved) ∧
    (Folderize.moveFiles orc fs (f :: rest)).2 =
      (Folderize.moveOneFile orc fs f).2 ::
        (Folderize.moveFiles orc (Folderize.moveOneFile orc fs f).1 rest).2 := by
  refine ⟨?_, ?_, by simp only [Folderize.moveFiles]⟩ <;>
  · unfold Folderize.moveOneFile
    by_cases h1 : f.name ∈ Folderize.IGNORED_FILES
    · simp [h1, hsrc]
    · by_cases h2 : jsToLowerCase (extname f.name) ∈ Folderize.ALLOWED_FILE_EXTENSIONS
      · by_cases h3 : (fs f.dstFilePath).isSome = true
        · simp [h1, h2, h3, hsrc]
        · have hdstnone : fs f.dstFilePath = none := by
            cases hh : fs f.dstFilePath with
            | none => rfl
            | some v => rw [hh] at h3; simp at h3
          have hne : f.srcFilePath ≠ f.dstFilePath := by
            intro heq
            rw [heq, hdstnone] at hsrc
            cases hsrc
          by_cases h4 : orc.copyOk f = false
          · simp [h1, h2, h3, h4, hsrc]
          · by_cases h5 : orc.utimesOk f = false
            · simp [h1, h2, h3, h4, h5, hsrc, Folderize.updateMFS, hne]
            · by_cases h6 : orc.unlinkOk f = false
              · simp [h1, h2, h3, h4, h5, h6, hsrc, Folderize.updateMFS, hne]
              · simp [h1, h2, h3, h4, h5, h6, hsrc, Folderize.updateMFS, hne,
                  Ne.symm hne]
      · simp [h1, h2, hsrc]

/-- Witness for C5 at a concrete file with an existing source. -/
theorem c5_source_deleted_only_after_copy_witness :
    ((Folderize.moveOneFile Folderize.copyFailOracle Folderize.witFsSrc
        Folderize.witFile).1 Folderize.witFile.srcFilePath = none →
      (Folderize.moveOneFile Folderize.copyFailOracle Folderize.witFsSrc
        Folderize.witFile).2 = .moved ∧
      (Folderize.moveOneFile Folderize.copyFailOracle Folderize.witFsSrc
        Folderize.witFile).1 Folderize.witFile.dstFilePath =
        some (Folderize.restoredEntry 9 Folderize.witFile.stats)) ∧
    ((Folderize.copyFailOracle.copyOk Folderize.witFile = false ∨
        Folderize.copyFailOracle.utimesOk Folderize.witFile = false) →
      (Folderize.moveOneFile Folderize.copyFailOracle Folderize.witFsSrc
        Folderize.witFile).1 Folderize.witFile.srcFilePath = some ⟨9, 1, 1, 1⟩ ∧
      (Folderize.moveOneFile Folderize.copyFailOracle Folderize.witFsSrc
        Folderize.witFile).2 ≠ .moved) ∧
    (Folderize.moveFiles Folderize.copyFailOracle Folderize.witFsSrc
        [Folderize.witFile]).2 =
      (Folderize.moveOneFile Folderize.copyFailOracle Folderize.witFsSrc
        Folderize.witFile).2 ::
        (Folderize.moveFiles Folderize.copyFailOracle
          (Folderize.moveOneFile Folderize.copyFailOracle Folderize.witFsSrc
            Folderize.witFile).1 []).2 :=
  c5_source_deleted_only_after_copy Folderize.copyFailOracle Folderize.witFsSrc
    Folderize.witFile [] ⟨9, 1, 1, 1⟩ (by decide)

/-- Helper: the events of `convertToH264Mp4` are exactly the duration
probe and the encoder invocation. -/
theorem convertToH264Mp4_evs (orc : Convert.ConvOracle) (fs : Convert.CFS)
    (i o : VPath) (del : Bool) :
    (Convert.convertToH264Mp4 orc fs i o del).2.1 =
      [Convert.ConvEvent.probeDuration i, Convert.ConvEvent.encode i o] := by
  unfold Convert.convertToH264Mp4
  dsimp only
  split
  · split
    · split <;> rfl
    · rfl
  · rfl

/-- Helper: the events of `convertAndCleanup` are the pending probe
events followed by the duration probe and the encoder invocation. -/
theorem convertAndCleanup_evsOut (orc : Convert.ConvOracle) (s del : Bool)
    (fs : Convert.CFS) (f o : VPath) (pre : List Convert.ConvEvent) :
    (Convert.convertAndCleanup orc s del fs f o pre).evsOut =
      pre ++ [Convert.ConvEvent.probeDuration f, Convert.ConvEvent.encode f o] := by
  unfold Convert.convertAndCleanup
  dsimp only
  split
  · dsimp [Convert.StepOut.evsOut]
    rw [convertToH264Mp4_evs]
  · split <;>
    · dsimp [Convert.StepOut.evsOut]
      rw [convertToH264Mp4_evs]

/-- Helper: every event emitted while processing a file whose lower-cased
extension is `.mp4` and whose probed codec is `h264` is not an encoder
invocation on that file; processing any other file only emits encoder
invocations naming that other file as input. -/
theorem processOne_no_encode (orc : Convert.ConvOracle) (s del : Bool)
    (fs : Convert.CFS) (f g : VPath)
    (hext : jsToLowerCase f.ext = ".mp4")
    (hcodec : orc.codecOf f = some "h264") :
    ((Convert.processOne orc s del fs g).evsOut.all
      (fun ev => !(ev.isEncodeOf f))) = true := by
  have hskip4 : Convert.skipsExtensionCheck ".mp4" = false := by decide
  by_cases hgf : g = f
  · subst hgf
    unfold Convert.processOne
    cases hfs : fs g with
    | none => simp [Convert.StepOut.evsOut]
    | some e =>
      by_cases hr : e.regular = false
      · simp [hr, Convert.StepOut.evsOut]
      · by_cases hskip : Convert.skipsExtensionCheck (jsToLowerCase g.ext) = true
        · simp [hr, hskip, Convert.StepOut.evsOut]
        · by_cases hex : (fs (Convert.outPathOf g)).isSome = true
          · simp [hr, hskip, hex, Convert.StepOut.evsOut,
              Convert.ConvEvent.isEncodeOf]
          · by_cases hren : orc.renameOk g = true <;>
              simp [hr, hskip, hskip4, hex, hext, hcodec, hren,
                Convert.StepOut.evsOut, Convert.ConvEvent.isEncodeOf]
  · unfold Convert.processOne
    cases hfs : fs g with
    | none => simp [Convert.StepOut.evsOut]
    | some e =>
      by_cases hr : e.regular = false
      · simp [hr, Convert.StepOut.evsOut]
      · by_cases hskip : Convert.skipsExtensionCheck (jsToLowerCase g.ext) = true
        · simp [hr, hskip, Convert.StepOut.evsOut]
        · by_cases hex : (fs (Convert.outPathOf g)).isSome = true
          · simp [hr, hskip, hex, Convert.StepOut.evsOut,
              Convert.ConvEvent.isEncodeOf]
          · by_cases hm : jsToLowerCase g.ext = ".mp4"
            · cases hc : orc.codecOf g with
              | none =>
                simp [hr, hskip, hskip4, hex, hm, hc, convertAndCleanup_evsOut,
                  Convert.ConvEvent.isEncodeOf, hgf]
              | some c =>
                by_cases hc264 : c = "h264"
                · by_cases hren : orc.renameOk g = true <;>
                    simp [hr, hskip, hskip4, hex, hm, hc, hc264, hren,
                      Convert.StepOut.evsOut, Convert.ConvEvent.isEncodeOf, hgf]
                · simp [hr, hskip, hskip4, hex, hm, hc, hc264,
                    convertAndCleanup_evsOut, Convert.ConvEvent.isEncodeOf, hgf]
            · simp [hr, hskip, hex, hm, convertAndCleanup_evsOut,
                Convert.ConvEvent.isEncodeOf, hgf]

/-- Helper: a thrown iteration aborts the run with the partial results of
that iteration. -/
theorem run_cons_thrown (orc : Convert.ConvOracle) (s del : Bool)
    (fs : Convert.CFS) (f : VPath) (rest : List VPath) (e : Convert.ConvErr)
    (h : (Convert.processOne orc s del fs f).errOut = some e) :
    Convert.convertVideoFiles orc s del fs (f :: rest) =
      ⟨(Convert.processOne orc s del fs f).fsOut,
        (Convert.processOne orc s del fs f).repOut.toList,
        (Convert.processOne orc s del fs f).evsOut, some e⟩ := by
  unfold Convert.convertVideoFiles
  cases hstep : Convert.processOne orc s del fs f with
  | cont fs1 rep evs => rw [hstep] at h; cases h
  | thrown fs1 rep evs e2 =>
    rw [hstep] at h
    simp only [Convert.StepOut.errOut, Option.some.injEq] at h
    subst h
    simp [Convert.StepOut.fsOut, Convert.StepOut.repOut, Convert.StepOut.evsOut]

/-- Helper: a non-thrown iteration prepends its results and the run
continues on the updated filesystem. -/
theorem run_cons_cont (orc : Convert.ConvOracle) (s del : Bool)
    (fs : Convert.CFS) (f : VPath) (rest : List VPath)
    (h : (Convert.processOne orc s del fs f).errOut = none) :
    Convert.convertVideoFiles orc s del fs (f :: rest) =
      ⟨(Convert.convertVideoFiles orc s del
          ((Convert.processOne orc s del fs f).fsOut) rest).fs,
        (Convert.processOne orc s del fs f).repOut.toList ++
          (Convert.convertVideoFiles orc s del
            ((Convert.processOne orc s del fs f).fsOut) rest).reports,
        (Convert.processOne orc s del fs f).evsOut ++
          (Convert.convertVideoFiles orc s del
            ((Convert.processOne orc s del fs f).fsOut) rest).events,
        (Convert.convertVideoFiles orc s del
          ((Convert.processOne orc s del fs f).fsOut) rest).aborted⟩ := by
  cases hstep : Convert.processOne orc s del fs f with
  | cont fs1 rep evs =>
    simp only [Convert.StepOut.fsOut, Convert.StepOut.repOut,
      Convert.StepOut.evsOut]
    simp only [Convert.convertVideoFiles, hstep]
  | thrown fs1 rep evs e2 => rw [hstep] at h; cases h

/-- Helper: when the encoder exits non-zero and the cleanup unlink
succeeds, `convertAndCleanup` reports the failure, leaves no file at the
output path, and throws exactly under `stopOnError`. -/
theorem convertAndCleanup_failure (orc : Convert.ConvOracle) (s del : Bool)
    (fs : Convert.CFS) (f o : VPath) (pre : List Convert.ConvEvent)
    (hexit : orc.exitCode f ≠ 0)
    (hclean : orc.unlinkOk o = true) :
    (Convert.convertAndCleanup orc s del fs f o pre).fsOut o = none ∧
    (Convert.convertAndCleanup orc s del fs f o pre).repOut =
      some ⟨f, .convertFailure (.ffmpegExit (orc.exitCode f))⟩ ∧
    (Convert.convertAndCleanup orc s del fs f o pre).errOut =
      (if s = true then some (Convert.ConvErr.ffmpegExit (orc.exitCode f)) else none) := by
  have hconv : Convert.convertToH264Mp4 orc fs f o del =
      ((if orc.partialLeft f then
          Convert.updateCFS fs o (some (orc.partialEntry f)) else fs),
        [Convert.ConvEvent.probeDuration f, Convert.ConvEvent.encode f o],
        .error (.ffmpegExit (orc.exitCode f))) := by
    unfold Convert.convertToH264Mp4
    simp [hexit]
  unfold Convert.convertAndCleanup
  rw [hconv]
  by_cases hp : orc.partialLeft f = true
  · simp [hp, Convert.updateCFS, hclean]
    cases s <;>
      simp [Convert.StepOut.fsOut, Convert.StepOut.repOut, Convert.StepOut.errOut,
        Convert.updateCFS]
  · simp only [hp, Bool.false_eq_true, if_neg, if_false]
    by_cases ho : (fs o).isSome = true
    · simp [ho, hclean]
      cases s <;>
        simp [Convert.StepOut.fsOut, Convert.StepOut.repOut,
          Convert.StepOut.errOut, Convert.updateCFS]
    · have hnone : fs o = none := by
        cases hh : fs o with
        | none => rfl
        | some v => rw [hh] at ho; simp at ho
      simp [ho]
      cases s <;>
        simp [Convert.StepOut.fsOut, Convert.StepOut.repOut,
          Convert.StepOut.errOut, hnone]

/-- Helper: the run never invokes the encoder on a file whose lower-cased
extension is `.mp4` and whose probed codec is `h264`. -/
theorem run_no_encode (orc : Convert.ConvOracle) (s del : Bool) (f : VPath)
    (hext : jsToLowerCase f.ext = ".mp4")
    (hcodec : orc.codecOf f = some "h264") :
    ∀ (files : List VPath) (fs0 : Convert.CFS),
      ((Convert.convertVideoFiles orc s del fs0 files).events.all
        (fun ev => !(ev.isEncodeOf f))) = true := by
  intro files
  induction files with
  | nil => intro fs0; simp [Convert.convertVideoFiles]
  | cons g rest ih =>
    intro fs0
    have h1 := processOne_no_encode orc s del fs0 f g hext hcodec
    cases hstep : Convert.processOne orc s del fs0 g with
    | cont fs1 rep evs =>
      rw [hstep] at h1
      simp only [Convert.StepOut.evsOut] at h1
      simp only [Convert.convertVideoFiles, hstep]
      simp [List.all_append, h1, ih fs1]
    | thrown fs1 rep evs e2 =>
      rw [hstep] at h1
      simp only [Convert.StepOut.evsOut] at h1
      simp only [Convert.convertVideoFiles, hstep]
      simp [h1]

/-- C7: a `.mp4` input probed as `h264`, processed when its output path
is free, is renamed into place (content preserved, no encode event,
only the codec probe and the rename call), and no run of the engine
ever invokes the encoder subprocess on such a file. -/
theorem c7_h264_passthrough (orc : Convert.ConvOracle) (s del : Bool)
    (fs fs0 : Convert.CFS) (f : VPath) (files : List VPath)
    (entry : Convert.Entry)
    (hext : jsToLowerCase f.ext = ".mp4")
    (hcodec : orc.codecOf f = some "h264")
    (hentry : fs f = some entry) (hreg : entry.regular = true)
    (hout : fs (Convert.outPathOf f) = none)
    (hren : orc.renameOk f = true) :
    Convert.processOne orc s del fs f =
      .cont (Convert.updateCFS (Convert.updateCFS fs (Convert.outPathOf f)
          (some entry)) f none)
        (some ⟨f, .renamed⟩)
        [.probeCodec f, .renameCall f (Convert.outPathOf f)] ∧
    ((Convert.convertVideoFiles orc s del fs0 files).events.all
      (fun ev => !(ev.isEncodeOf f))) = true := by
  constructor
  · have hskip4 : Convert.skipsExtensionCheck ".mp4" = false := by decide
    unfold Convert.processOne
    rw [hentry]
    simp [hreg, hskip4, hout, hext, hcodec, hren]
  · exact run_no_encode orc s del f hext hcodec files fs0

/-- C8: when every file of the list is a regular file whose computed
output path already exists, the whole run changes nothing, emits no
probe, encode or rename event, aborts nothing, and reports exactly one
already-converted skip per video-extension file; a second run over the
same inputs with the outputs present therefore performs no second
encode and reports skips. -/
theorem c8_existing_output_skips (orc : Convert.ConvOracle) (s del : Bool)
    (fs : Convert.CFS) (files : List VPath)
    (hreg : ∀ f ∈ files, (fs f).map Convert.Entry.regular = some true)
    (hout : ∀ f ∈ files, (fs (Convert.outPathOf f)).isSome = true) :
    Convert.convertVideoFiles orc s del fs files =
      ⟨fs,
        files.filterMap (fun f =>
          if Convert.skipsExtensionCheck (jsToLowerCase f.ext) = true then none
          else some ⟨f, Convert.ConvOutcome.skippedExists⟩),
        [], none⟩ := by
  induction files with
  | nil => rfl
  | cons g rest ih =>
    have hg := hreg g (by simp)
    have hgo := hout g (by simp)
    obtain ⟨e, hfs, hregg⟩ : ∃ e, fs g = some e ∧ e.regular = true := by
      cases hh : fs g with
      | none => rw [hh] at hg; cases hg
      | some e =>
        rw [hh] at hg
        simp at hg
        exact ⟨e, rfl, hg⟩
    have ih2 := ih (fun f hf => hreg f (by simp [hf])) (fun f hf => hout f (by simp [hf]))
    have hstep : Convert.processOne orc s del fs g =
        .cont fs
          (if Convert.skipsExtensionCheck (jsToLowerCase g.ext) = true then none
           else some ⟨g, Convert.ConvOutcome.skippedExists⟩) [] := by
      unfold Convert.processOne
      rw [hfs]
      by_cases hskip : Convert.skipsExtensionCheck (jsToLowerCase g.ext) = true
      · simp [hregg, hskip]
      · simp [hregg, hskip, hgo]
    simp only [Convert.convertVideoFiles, hstep, ih2]
    by_cases hskip : Convert.skipsExtensionCheck (jsToLowerCase g.ext) = true <;>
      simp [hskip]

/-- C6: when the encoder exits non-zero for a file that reaches the
conversion step (video extension, no pre-existing output, not the
already-H.264 rename case) and the cleanup unlink succeeds, the job is
a failure: no file remains at the output path, the failure is reported
for that file, under stop-on-error the whole run aborts with that error
and no later file is processed, and otherwise the run continues with
the remaining files. -/
theorem c6_encoder_failure (orc : Convert.ConvOracle) (s del : Bool)
    (fs : Convert.CFS) (f : VPath) (rest : List VPath) (entry : Convert.Entry)
    (hentry : fs f = some entry) (hreg : entry.regular = true)
    (hvid : Convert.skipsExtensionCheck (jsToLowerCase f.ext) = false)
    (hout : fs (Convert.outPathOf f) = none)
    (hnotpass : ¬(jsToLowerCase f.ext = ".mp4" ∧ orc.codecOf f = some "h264"))
    (hexit : orc.exitCode f ≠ 0)
    (hclean : orc.unlinkOk (Convert.outPathOf f) = true) :
    (Convert.processOne orc s del fs f).fsOut (Convert.outPathOf f) = none ∧
    (Convert.processOne orc s del fs f).repOut =
      some ⟨f, .convertFailure (.ffmpegExit (orc.exitCode f))⟩ ∧
    (Convert.convertVideoFiles orc true del fs (f :: rest)).aborted =
      some (.ffmpegExit (orc.exitCode f)) ∧
    (Convert.convertVideoFiles orc true del fs (f :: rest)).reports =
      [⟨f, .convertFailure (.ffmpegExit (orc.exitCode f))⟩] ∧
    (Convert.convertVideoFiles orc false del fs (f :: rest)).reports =
      ⟨f, .convertFailure (.ffmpegExit (orc.exitCode f))⟩ ::
        (Convert.convertVideoFiles orc false del
          ((Convert.processOne orc false del fs f).fsOut) rest).reports := by
  have hstep : ∀ t : Bool, ∃ pre, Convert.processOne orc t del fs f =
      Convert.convertAndCleanup orc t del fs f (Convert.outPathOf f) pre := by
    intro t
    have hskip4 : Convert.skipsExtensionCheck ".mp4" = false := by decide
    unfold Convert.processOne
    rw [hentry]
    by_cases hm : jsToLowerCase f.ext = ".mp4"
    · cases hc : orc.codecOf f with
      | none =>
        refine ⟨[.probeCodec f], ?_⟩
        simp [hreg, hvid, hskip4, hout, hm, hc]
      | some c =>
        have hc264 : c ≠ "h264" := by
          intro hcc
          exact hnotpass ⟨hm, by rw [hc, hcc]⟩
        refine ⟨[.probeCodec f], ?_⟩
        simp [hreg, hvid, hskip4, hout, hm, hc, hc264]
    · refine ⟨[], ?_⟩
      simp [hreg, hvid, hout, hm]
  obtain ⟨preS, hS⟩ := hstep s
  obtain ⟨preT, hT⟩ := hstep true
  obtain ⟨preF, hF⟩ := hstep false
  obtain ⟨hfs1, hrep1, herr1⟩ := convertAndCleanup_failure orc s del fs f
    (Convert.outPathOf f) preS hexit hclean
  obtain ⟨hfsT, hrepT, herrT⟩ := convertAndCleanup_failure orc true del fs f
    (Convert.outPathOf f) preT hexit hclean
  obtain ⟨hfsF, hrepF, herrF⟩ := convertAndCleanup_failure orc false del fs f
    (Convert.outPathOf f) preF hexit hclean
  simp only [if_true] at herrT
  simp only [Bool.false_eq_true, if_false] at herrF
  have hrunT := run_cons_thrown orc true del fs f rest
    (.ffmpegExit (orc.exitCode f)) (by rw [hT]; exact herrT)
  have hrunF := run_cons_cont orc false del fs f rest (by rw [hF]; exact herrF)
  refine ⟨?_, ?_, ?_, ?_, ?_⟩
  · rw [hS]; exact hfs1
  · rw [hS]; exact hrep1
  · rw [hrunT]
  · rw [hrunT]
    rw [hT, hrepT]
    rfl
  · rw [hrunF]
    rw [hF, hrepF]
    rfl

/-- Witness for C6 at a concrete `.mov` file and failing encoder. -/
theorem c6_encoder_failure_witness :
    (Convert.processOne Convert.cWitOracleFail false false Convert.cWitFsMov
      Convert.cWitMov).fsOut (Convert.outPathOf Convert.cWitMov) = none ∧
    (Convert.processOne Convert.cWitOracleFail false false Convert.cWitFsMov
      Convert.cWitMov).repOut =
      some ⟨Convert.cWitMov, .convertFailure
        (.ffmpegExit (Convert.cWitOracleFail.exitCode Convert.cWitMov))⟩ ∧
    (Convert.convertVideoFiles Convert.cWitOracleFail true false Convert.cWitFsMov
      [Convert.cWitMov]).aborted =
      some (.ffmpegExit (Convert.cWitOracleFail.exitCode Convert.cWitMov)) ∧
    (Convert.convertVideoFiles Convert.cWitOracleFail true false Convert.cWitFsMov
      [Convert.cWitMov]).reports =
      [⟨Convert.cWitMov, .convertFailure
        (.ffmpegExit (Convert.cWitOracleFail.exitCode Convert.cWitMov))⟩] ∧
    (Convert.convertVideoFiles Convert.cWitOracleFail false false Convert.cWitFsMov
      [Convert.cWitMov]).reports =
      ⟨Convert.cWitMov, .convertFailure
        (.ffmpegExit (Convert.cWitOracleFail.exitCode Convert.cWitMov))⟩ ::
        (Convert.convertVideoFiles Convert.cWitOracleFail false false
          ((Convert.processOne Convert.cWitOracleFail false false Convert.cWitFsMov
            Convert.cWitMov).fsOut) []).reports :=
  c6_encoder_failure Convert.cWitOracleFail false false Convert.cWitFsMov
    Convert.cWitMov [] Convert.cWitEntry (by decide) (by decide) (by decide)
    (by decide) (by decide) (by decide) (by decide)

/-- Witness for C7 at a concrete already-H.264 `.MP4` file. -/
theorem c7_h264_passthrough_witness :
    Convert.processOne Convert.cWitOracleH264 false false Convert.cWitFsRen
      Convert.cWitMp4Upper =
      .cont (Convert.updateCFS (Convert.updateCFS Convert.cWitFsRen
          (Convert.outPathOf Convert.cWitMp4Upper) (some Convert.cWitEntry))
          Convert.cWitMp4Upper none)
        (some ⟨Convert.cWitMp4Upper, .renamed⟩)
        [.probeCodec Convert.cWitMp4Upper,
         .renameCall Convert.cWitMp4Upper (Convert.outPathOf Convert.cWitMp4Upper)] ∧
    ((Convert.convertVideoFiles Convert.cWitOracleH264 false false Convert.cWitFsRen
      [Convert.cWitMp4Upper]).events.all
      (fun ev => !(ev.isEncodeOf Convert.cWitMp4Upper))) = true :=
  c7_h264_passthrough Convert.cWitOracleH264 false false Convert.cWitFsRen
    Convert.cWitFsRen Convert.cWitMp4Upper [Convert.cWitMp4Upper]
    Convert.cWitEntry (by decide) (by decide) (by decide) (by decide) (by decide)
    (by decide)

/-- Witness for C8 at a concrete `.mov` file whose output exists. -/
theorem c8_existing_output_skips_witness :
    Convert.convertVideoFiles Convert.cWitOracleH264 false false Convert.cWitFsBoth
      [Convert.cWitMov] =
      ⟨Convert.cWitFsBoth,
        [Convert.cWitMov].filterMap (fun f =>
          if Convert.skipsExtensionCheck (jsToLowerCase f.ext) = true then none
          else some ⟨f, Convert.ConvOutcome.skippedExists⟩),
        [], none⟩ :=
  c8_existing_output_skips Convert.cWitOracleH264 false false Convert.cWitFsBoth
    [Convert.cWitMov] (by decide) (by decide)

/-- Helper: left-biased choice with an empty right branch. -/
theorem optOr_none_right {α : Type} (a : Option α) : Dedupe.optOr a none = a := by
  cases a <;> rfl

/-- Helper: folding the last-MP4 step from any start equals the fold
from `none` unless no member matches. -/
theorem lastMp4_foldl_acc (k : String × String) :
    ∀ (files : List VPath) (a : Option VPath),
      files.foldl (Dedupe.lastMp4Step k) a =
        Dedupe.optOr (Dedupe.lastMp4 files k) a := by
  intro files
  induction files with
  | nil => intro a; simp [Dedupe.lastMp4, Dedupe.optOr]
  | cons p fs ih =>
    intro a
    rw [List.foldl_cons, ih]
    rw [show Dedupe.lastMp4 (p :: fs) k =
      fs.foldl (Dedupe.lastMp4Step k) (Dedupe.lastMp4Step k none p) from rfl]
    rw [ih]
    cases hL : Dedupe.lastMp4 fs k with
    | some m => simp [Dedupe.optOr]
    | none =>
      by_cases hc : (Dedupe.groupKey p = k ∧ jsToLowerCase p.ext = ".mp4")
      · simp [Dedupe.lastMp4Step, Dedupe.optOr, hc]
      · simp [Dedupe.lastMp4Step, Dedupe.optOr, hc]

/-- Helper: lookup skips an entry with a different key. -/
theorem findInGroups_cons_ne (k' k : String × String) (g : Dedupe.Group)
    (gs : List ((String × String) × Dedupe.Group)) (h : ¬k' = k) :
    Dedupe.findInGroups ((k', g) :: gs) k = Dedupe.findInGroups gs k := by
  simp [Dedupe.findInGroups, h]

/-- Helper: looking a key up after adding one file updates exactly the
entry of that file key. -/
theorem addToGroups_find (p : VPath) (k : String × String) :
    ∀ (gs : List ((String × String) × Dedupe.Group)),
      Dedupe.findInGroups (Dedupe.addToGroups gs p) k =
        if Dedupe.groupKey p = k then
          some (Dedupe.updGroup ((Dedupe.findInGroups gs k).getD Dedupe.emptyGroup) p)
        else Dedupe.findInGroups gs k := by
  intro gs
  induction gs with
  | nil =>
    by_cases h : Dedupe.groupKey p = k
    · simp [Dedupe.addToGroups, Dedupe.findInGroups, h]
    · simp [Dedupe.addToGroups, Dedupe.findInGroups, h]
  | cons e rest ih =>
    obtain ⟨k', g'⟩ := e
    by_cases h1 : k' = Dedupe.groupKey p
    · subst h1
      by_cases h2 : Dedupe.groupKey p = k
      · simp [Dedupe.addToGroups, Dedupe.findInGroups, h2]
      · simp [Dedupe.addToGroups, Dedupe.findInGroups, h2]
    · by_cases h2 : k' = k
      · subst h2
        have h3 : ¬(Dedupe.groupKey p = k') := fun hh => h1 hh.symm
        simp [Dedupe.addToGroups, Dedupe.findInGroups, h1, h3]
      · simp only [Dedupe.addToGroups, if_neg h1]
        rw [findInGroups_cons_ne k' k g' (Dedupe.addToGroups rest p) h2]
        rw [findInGroups_cons_ne k' k g' rest h2]
        exact ih

/-- Helper: the lookup of the built group map is the pointwise fold. -/
theorem groupVideoFiles_find_acc (k : String × String) :
    ∀ (files : List VPath) (acc : List ((String × String) × Dedupe.Group)),
      Dedupe.findInGroups (files.foldl Dedupe.addToGroups acc) k =
        files.foldl (Dedupe.stepG k) (Dedupe.findInGroups acc k) := by
  intro files
  induction files with
  | nil => intro acc; rfl
  | cons p fs ih =>
    intro acc
    rw [List.foldl_cons, List.foldl_cons, ih, addToGroups_find]
    rfl

/-- Helper: the lookup of `groupVideoFiles` is `groupAt`. -/
theorem groupVideoFiles_find (files : List VPath) (k : String × String) :
    Dedupe.findInGroups (Dedupe.groupVideoFiles files) k = Dedupe.groupAt files k := by
  unfold Dedupe.groupVideoFiles Dedupe.groupAt
  rw [groupVideoFiles_find_acc]
  rfl

/-- Helper: the others slot accumulated by the fold. -/
theorem stepG_fold_others (k : String × String) :
    ∀ (files : List VPath) (og : Option Dedupe.Group),
      ((files.foldl (Dedupe.stepG k) og).getD Dedupe.emptyGroup).others =
        ((og.getD Dedupe.emptyGroup)).others ++ Dedupe.otherMembers files k := by
  intro files
  induction files with
  | nil => intro og; simp [Dedupe.otherMembers]
  | cons p fs ih =>
    intro og
    rw [List.foldl_cons, ih]
    by_cases h1 : Dedupe.groupKey p = k
    · by_cases h2 : jsToLowerCase p.ext = ".mp4"
      · simp [Dedupe.stepG, Dedupe.updGroup, h1, h2, Dedupe.otherMembers]
      · simp [Dedupe.stepG, Dedupe.updGroup, h1, h2, Dedupe.otherMembers]
    · simp [Dedupe.stepG, h1, Dedupe.otherMembers]

/-- Helper: the mp4 slot accumulated by the fold is the last-scanned MP4
member. -/
theorem stepG_fold_mp4 (k : String × String) :
    ∀ (files : List VPath) (og : Option Dedupe.Group),
      ((files.foldl (Dedupe.stepG k) og).getD Dedupe.emptyGroup).mp4 =
        Dedupe.optOr (Dedupe.lastMp4 files k) ((og.getD Dedupe.emptyGroup).mp4) := by
  intro files
  induction files with
  | nil => intro og; simp [Dedupe.lastMp4, Dedupe.optOr]
  | cons p fs ih =>
    intro og
    rw [List.foldl_cons, ih]
    rw [show Dedupe.lastMp4 (p :: fs) k =
      fs.foldl (Dedupe.lastMp4Step k) (Dedupe.lastMp4Step k none p) from rfl]
    rw [lastMp4_foldl_acc]
    cases hL : Dedupe.lastMp4 fs k with
    | some m => simp [Dedupe.optOr]
    | none =>
      by_cases h1 : Dedupe.groupKey p = k
      · by_cases h2 : jsToLowerCase p.ext = ".mp4"
        · simp [Dedupe.stepG, Dedupe.updGroup, Dedupe.lastMp4Step, Dedupe.optOr, h1, h2]
        · simp [Dedupe.stepG, Dedupe.updGroup, Dedupe.lastMp4Step, Dedupe.optOr, h1, h2]
      · simp [Dedupe.stepG, Dedupe.lastMp4Step, Dedupe.optOr, h1]

/-- Helper: the others of the stored group are the non-MP4 members. -/
theorem groupAt_others (files : List VPath) (k : String × String) :
    ((Dedupe.groupAt files k).getD Dedupe.emptyGroup).others =
      Dedupe.otherMembers files k := by
  have h := stepG_fold_others k files none
  simpa [Dedupe.groupAt, Dedupe.emptyGroup] using h

/-- Helper: the mp4 slot of the stored group is the last-scanned MP4
member. -/
theorem groupAt_mp4 (files : List VPath) (k : String × String) :
    ((Dedupe.groupAt files k).getD Dedupe.emptyGroup).mp4 =
      Dedupe.lastMp4 files k := by
  have h := stepG_fold_mp4 k files none
  unfold Dedupe.groupAt
  rw [h]
  simp [Dedupe.emptyGroup, optOr_none_right]

/-- Helper: key list of the map after adding one file. -/
theorem addToGroups_keys (p : VPath) :
    ∀ gs : List ((String × String) × Dedupe.Group),
      (Dedupe.addToGroups gs p).map Prod.fst =
        if Dedupe.groupKey p ∈ gs.map Prod.fst then gs.map Prod.fst
        else gs.map Prod.fst ++ [Dedupe.groupKey p] := by
  intro gs
  induction gs with
  | nil => simp [Dedupe.addToGroups]
  | cons e rest ih =>
    obtain ⟨k', g'⟩ := e
    by_cases h1 : k' = Dedupe.groupKey p
    · subst h1
      simp [Dedupe.addToGroups]
    · have h1' : ¬Dedupe.groupKey p = k' := fun hh => h1 hh.symm
      by_cases hm : Dedupe.groupKey p ∈ rest.map Prod.fst
      · simp [Dedupe.addToGroups, h1, h1', hm, ih]
      · simp [Dedupe.addToGroups, h1, h1', hm, ih]

/-- Helper: the built group map has pairwise distinct keys. -/
theorem groupVideoFiles_keys_nodup (files : List VPath) :
    ((Dedupe.groupVideoFiles files).map Prod.fst).Nodup := by
  suffices h : ∀ acc : List ((String × String) × Dedupe.Group),
      (acc.map Prod.fst).Nodup → ((files.foldl Dedupe.addToGroups acc).map Prod.fst).Nodup by
    exact h [] (by simp)
  induction files with
  | nil => intro acc hacc; simpa using hacc
  | cons p fs ih =>
    intro acc hacc
    rw [List.foldl_cons]
    refine ih (Dedupe.addToGroups acc p) ?_
    rw [addToGroups_keys]
    by_cases hm : Dedupe.groupKey p ∈ acc.map Prod.fst
    · simpa [hm] using hacc
    · simp only [hm, if_neg, if_false]
      simp [List.nodup_append, hacc, hm]

/-- Helper: in a map with distinct keys, membership determines lookup. -/
theorem find_of_mem_nodup :
    ∀ (gs : List ((String × String) × Dedupe.Group)) (k : String × String)
      (g : Dedupe.Group), (gs.map Prod.fst).Nodup → (k, g) ∈ gs →
      Dedupe.findInGroups gs k = some g := by
  intro gs
  induction gs with
  | nil => intro k g _ hmem; cases hmem
  | cons e rest ih =>
    intro k g hnd hmem
    obtain ⟨k', g'⟩ := e
    rcases List.mem_cons.mp hmem with heq | hmem2
    · obtain ⟨hk, hg⟩ := Prod.mk.injEq .. |>.mp heq.symm
      subst hk
      subst hg
      simp [Dedupe.findInGroups]
    · have hk : ¬k' = k := by
        intro hkk
        subst hkk
        have hmap : k' ∈ rest.map Prod.fst :=
          List.mem_map.mpr ⟨(k', g), hmem2, rfl⟩
        exact (List.nodup_cons.mp (by simpa using hnd)).1 hmap
      rw [findInGroups_cons_ne k' k g' rest hk]
      exact ih k g (List.nodup_cons.mp (by simpa using hnd)).2 hmem2

/-- Helper: membership characterization of the duplicates, the near-miss
reports and their recorded deltas produced by the inner member loop. -/
theorem probeOthers_char (probe : VPath → Option ℚ) (s : Bool) (m : VPath)
    (md : ℚ) :
    ∀ (os : List VPath) (r : List Dedupe.DupEntry × List Dedupe.KeptEntry)
      (f : VPath), Dedupe.probeOthers probe s m md os = .ok r →
      ((∃ e ∈ r.1, e.path = f) ↔
        (f ∈ os ∧ ∃ fd, probe f = some fd ∧
          Dedupe.mathAbs (md - fd) ≤ Dedupe.DURATION_TOLERANCE_SECONDS)) ∧
      ((∃ e ∈ r.2, e.path = f) ↔
        (f ∈ os ∧ ∃ fd, probe f = some fd ∧
          Dedupe.DURATION_TOLERANCE_SECONDS < Dedupe.mathAbs (md - fd))) ∧
      (∀ e ∈ r.2, e.diff = Dedupe.mathAbs (e.mp4Duration - e.duration) ∧ e.mp4Duration = md) := by
  intro os
  induction os with
  | nil =>
    intro r f h
    simp only [Dedupe.probeOthers] at h
    injection h with h2
    subst h2
    simp
  | cons o os ih =>
    intro r f h
    simp only [Dedupe.probeOthers] at h
    cases hpo : probe o with
    | none =>
      rw [hpo] at h
      cases s with
      | true => simp at h
      | false =>
        simp only [Bool.false_eq_true, if_neg, if_false] at h
        obtain ⟨hd, hk, hdiff⟩ := ih r f h
        have hne : f ∈ o :: os ∧ (∃ fd, probe f = some fd) → f ∈ os := by
          rintro ⟨hmem, fd, hfd⟩
          rcases List.mem_cons.mp hmem with rfl | h2
          · rw [hpo] at hfd; cases hfd
          · exact h2
        refine ⟨?_, ?_, hdiff⟩
        · rw [hd]
          constructor
          · rintro ⟨hmem, fd, hfd, hP⟩
            exact ⟨List.mem_cons_of_mem o hmem, fd, hfd, hP⟩
          · rintro ⟨hmem, fd, hfd, hP⟩
            exact ⟨hne ⟨hmem, fd, hfd⟩, fd, hfd, hP⟩
        · rw [hk]
          constructor
          · rintro ⟨hmem, fd, hfd, hP⟩
            exact ⟨List.mem_cons_of_mem o hmem, fd, hfd, hP⟩
          · rintro ⟨hmem, fd, hfd, hP⟩
            exact ⟨hne ⟨hmem, fd, hfd⟩, fd, hfd, hP⟩
    | some od =>
      rw [hpo] at h
      dsimp only at h
      cases hrec : Dedupe.probeOthers probe s m md os with
      | error e2 => rw [hrec] at h; simp at h
      | ok r2 =>
        rw [hrec] at h
        obtain ⟨ds', ks'⟩ := r2
        dsimp only at h
        obtain ⟨hd, hk, hdiff⟩ := ih (ds', ks') f hrec
        by_cases htol : Dedupe.mathAbs (md - od) ≤ Dedupe.DURATION_TOLERANCE_SECONDS
        · rw [if_pos htol] at h
          injection h with h2
          subst h2
          refine ⟨?_, ?_, hdiff⟩
          · constructor
            · rintro ⟨e, hmem, hpath⟩
              rcases List.mem_cons.mp hmem with rfl | hmem2
              · subst hpath
                exact ⟨List.mem_cons_self _ _, od, hpo, htol⟩
              · obtain ⟨hm1, fd, hfd, hP⟩ := hd.mp ⟨e, hmem2, hpath⟩
                exact ⟨List.mem_cons_of_mem o hm1, fd, hfd, hP⟩
            · rintro ⟨hmem, fd, hfd, hP⟩
              rcases List.mem_cons.mp hmem with rfl | hmem2
              · exact ⟨⟨f, m, od, md⟩, List.mem_cons_self _ _, rfl⟩
              · obtain ⟨e, he, hpath⟩ := hd.mpr ⟨hmem2, fd, hfd, hP⟩
                exact ⟨e, List.mem_cons_of_mem _ he, hpath⟩
          · rw [hk]
            constructor
            · rintro ⟨hmem, fd, hfd, hP⟩
              exact ⟨List.mem_cons_of_mem o hmem, fd, hfd, hP⟩
            · rintro ⟨hmem, fd, hfd, hP⟩
              rcases List.mem_cons.mp hmem with rfl | hmem2
              · rw [hpo] at hfd
                injection hfd with hfd2
                subst hfd2
                exact absurd htol (not_le.mpr hP)
              · exact ⟨hmem2, fd, hfd, hP⟩
        · rw [if_neg htol] at h
          injection h with h2
          subst h2
          refine ⟨?_, ?_, ?_⟩
          · rw [hd]
            constructor
            · rintro ⟨hmem, fd, hfd, hP⟩
              exact ⟨List.mem_cons_of_mem o hmem, fd, hfd, hP⟩
            · rintro ⟨hmem, fd, hfd, hP⟩
              rcases List.mem_cons.mp hmem with rfl | hmem2
              · rw [hpo] at hfd
                injection hfd with hfd2
                subst hfd2
                exact absurd hP (by simpa using htol)
              · exact ⟨hmem2, fd, hfd, hP⟩
          · constructor
            · rintro ⟨e, hmem, hpath⟩
              rcases List.mem_cons.mp hmem with rfl | hmem2
              · subst hpath
                exact ⟨List.mem_cons_self _ _, od, hpo, not_le.mp htol⟩
              · obtain ⟨hm1, fd, hfd, hP⟩ := hk.mp ⟨e, hmem2, hpath⟩
                exact ⟨List.mem_cons_of_mem o hm1, fd, hfd, hP⟩
            · rintro ⟨hmem, fd, hfd, hP⟩
              rcases List.mem_cons.mp hmem with rfl | hmem2
              · exact ⟨⟨f, od, md, Dedupe.mathAbs (md - od)⟩, List.mem_cons_self _ _, rfl⟩
              · obtain ⟨e, he, hpath⟩ := hk.mpr ⟨hmem2, fd, hfd, hP⟩
                exact ⟨e, List.mem_cons_of_mem _ he, hpath⟩
          · intro e he
            rcases List.mem_cons.mp he with rfl | he2
            · exact ⟨rfl, rfl⟩
            · exact hdiff e he2

/-- Helper: a group whose mp4 slot yields no probed duration contributes
nothing to the scan. -/
theorem exists_group_cons_iff (probe : VPath → Option ℚ) (f : VPath)
    (k0 : String × String) (g0 : Dedupe.Group)
    (gs : List ((String × String) × Dedupe.Group)) (Q : ℚ → ℚ → Prop)
    (hhead : ∀ m md, g0.mp4 = some m → probe m = some md → False) :
    (∃ k g m md fd, (k, g) ∈ (k0, g0) :: gs ∧ g.mp4 = some m ∧
      probe m = some md ∧ f ∈ g.others ∧ probe f = some fd ∧ Q md fd) ↔
    (∃ k g m md fd, (k, g) ∈ gs ∧ g.mp4 = some m ∧
      probe m = some md ∧ f ∈ g.others ∧ probe f = some fd ∧ Q md fd) := by
  constructor
  · rintro ⟨k, g, m, md, fd, hmem, hgmp4, hpm, hrest⟩
    rcases List.mem_cons.mp hmem with heq | hmem2
    · obtain ⟨hk1, hg1⟩ := Prod.mk.injEq .. |>.mp heq
      subst hk1
      subst hg1
      exact (hhead m md hgmp4 hpm).elim
    · exact ⟨k, g, m, md, fd, hmem2, hgmp4, hpm, hrest⟩
  · rintro ⟨k, g, m, md, fd, hmem, hrest⟩
    exact ⟨k, g, m, md, fd, List.mem_cons_of_mem _ hmem, hrest⟩

/-- Helper: membership characterization of the duplicates and near-miss
reports produced by the group loop. -/
theorem processGroups_char (probe : VPath → Option ℚ) (s : Bool) :
    ∀ (gs : List ((String × String) × Dedupe.Group))
      (r : List Dedupe.DupEntry × List Dedupe.KeptEntry) (f : VPath),
      Dedupe.processGroups probe s gs = .ok r →
      ((∃ e ∈ r.1, e.path = f) ↔
        (∃ k g m md fd, (k, g) ∈ gs ∧ g.mp4 = some m ∧ probe m = some md ∧
          f ∈ g.others ∧ probe f = some fd ∧
          Dedupe.mathAbs (md - fd) ≤ Dedupe.DURATION_TOLERANCE_SECONDS)) ∧
      ((∃ e ∈ r.2, e.path = f) ↔
        (∃ k g m md fd, (k, g) ∈ gs ∧ g.mp4 = some m ∧ probe m = some md ∧
          f ∈ g.others ∧ probe f = some fd ∧
          Dedupe.DURATION_TOLERANCE_SECONDS < Dedupe.mathAbs (md - fd))) ∧
      (∀ e ∈ r.2, e.diff = Dedupe.mathAbs (e.mp4Duration - e.duration)) := by
  intro gs
  induction gs with
  | nil =>
    intro r f h
    simp only [Dedupe.processGroups] at h
    injection h with h2
    subst h2
    simp
  | cons e0 gs ih =>
    intro r f h
    obtain ⟨k0, g0⟩ := e0
    simp only [Dedupe.processGroups] at h
    cases hm : g0.mp4 with
    | none =>
      rw [hm] at h
      dsimp only at h
      obtain ⟨hd, hk, hdiff⟩ := ih r f h
      have hhead : ∀ m md, g0.mp4 = some m → probe m = some md → False := by
        intro m md hgm _
        rw [hm] at hgm
        cases hgm
      refine ⟨?_, ?_, hdiff⟩
      · rw [hd]
        exact (exists_group_cons_iff probe f k0 g0 gs _ hhead).symm
      · rw [hk]
        exact (exists_group_cons_iff probe f k0 g0 gs _ hhead).symm
    | some m0 =>
      rw [hm] at h
      dsimp only at h
      cases hpm : probe m0 with
      | none =>
        rw [hpm] at h
        dsimp only at h
        cases s with
        | true => simp at h
        | false =>
          simp only [Bool.false_eq_true, if_neg, if_false] at h
          obtain ⟨hd, hk, hdiff⟩ := ih r f h
          have hhead : ∀ m md, g0.mp4 = some m → probe m = some md → False := by
            intro m md hgm hp
            rw [hm] at hgm
            injection hgm with h1
            subst h1
            rw [hpm] at hp
            cases hp
          refine ⟨?_, ?_, hdiff⟩
          · rw [hd]
            exact (exists_group_cons_iff probe f k0 g0 gs _ hhead).symm
          · rw [hk]
            exact (exists_group_cons_iff probe f k0 g0 gs _ hhead).symm
      | some md0 =>
        rw [hpm] at h
        dsimp only at h
        cases hpo : Dedupe.probeOthers probe s m0 md0 g0.others with
        | error e2 => rw [hpo] at h; simp at h
        | ok r1 =>
          rw [hpo] at h
          obtain ⟨ds1, ks1⟩ := r1
          dsimp only at h
          cases hrec : Dedupe.processGroups probe s gs with
          | error e2 => rw [hrec] at h; simp at h
          | ok r2 =>
            rw [hrec] at h
            obtain ⟨ds2, ks2⟩ := r2
            dsimp only at h
            injection h with h2
            subst h2
            obtain ⟨hd2, hk2, hdiff2⟩ := ih (ds2, ks2) f hrec
            obtain ⟨hd1, hk1, hdiff1⟩ :=
              probeOthers_char probe s m0 md0 g0.others (ds1, ks1) f hpo
            refine ⟨?_, ?_, ?_⟩
            · constructor
              · rintro ⟨e, hmem, hpath⟩
                rcases List.mem_append.mp hmem with h1 | h2
                · obtain ⟨hfin, fd, hfp, hfle⟩ := hd1.mp ⟨e, h1, hpath⟩
                  exact ⟨k0, g0, m0, md0, fd, List.mem_cons_self _ _, hm, hpm,
                    hfin, hfp, hfle⟩
                · obtain ⟨k, g, m, md, fd, hmem2, hrest⟩ := hd2.mp ⟨e, h2, hpath⟩
                  exact ⟨k, g, m, md, fd, List.mem_cons_of_mem _ hmem2, hrest⟩
              · rintro ⟨k, g, m, md, fd, hmem, hgmp4, hpm2, hfin, hfp, hfle⟩
                rcases List.mem_cons.mp hmem with heq | hmem2
                · obtain ⟨hkk, hgg⟩ := Prod.mk.injEq .. |>.mp heq
                  subst hkk
                  subst hgg
                  rw [hm] at hgmp4
                  injection hgmp4 with hm1
                  subst hm1
                  rw [hpm] at hpm2
                  injection hpm2 with hmd1
                  subst hmd1
                  obtain ⟨e, he, hpath⟩ := hd1.mpr ⟨hfin, fd, hfp, hfle⟩
                  exact ⟨e, List.mem_append_left _ he, hpath⟩
                · obtain ⟨e, he, hpath⟩ :=
                    hd2.mpr ⟨k, g, m, md, fd, hmem2, hgmp4, hpm2, hfin, hfp, hfle⟩
                  exact ⟨e, List.mem_append_right _ he, hpath⟩
            · constructor
              · rintro ⟨e, hmem, hpath⟩
                rcases List.mem_append.mp hmem with h1 | h2
                · obtain ⟨hfin, fd, hfp, hfgt⟩ := hk1.mp ⟨e, h1, hpath⟩
                  exact ⟨k0, g0, m0, md0, fd, List.mem_cons_self _ _, hm, hpm,
                    hfin, hfp, hfgt⟩
                · obtain ⟨k, g, m, md, fd, hmem2, hrest⟩ := hk2.mp ⟨e, h2, hpath⟩
                  exact ⟨k, g, m, md, fd, List.mem_cons_of_mem _ hmem2, hrest⟩
              · rintro ⟨k, g, m, md, fd, hmem, hgmp4, hpm2, hfin, hfp, hfgt⟩
                rcases List.mem_cons.mp hmem with heq | hmem2
                · obtain ⟨hkk, hgg⟩ := Prod.mk.injEq .. |>.mp heq
                  subst hkk
                  subst hgg
                  rw [hm] at hgmp4
                  injection hgmp4 with hm1
                  subst hm1
                  rw [hpm] at hpm2
                  injection hpm2 with hmd1
                  subst hmd1
                  obtain ⟨e, he, hpath⟩ := hk1.mpr ⟨hfin, fd, hfp, hfgt⟩
                  exact ⟨e, List.mem_append_left _ he, hpath⟩
                · obtain ⟨e, he, hpath⟩ :=
                    hk2.mpr ⟨k, g, m, md, fd, hmem2, hgmp4, hpm2, hfin, hfp, hfgt⟩
                  exact ⟨e, List.mem_append_right _ he, hpath⟩
            · intro e he
              rcases List.mem_append.mp he with h1 | h2
              · exact (hdiff1 e h1).1
              · exact hdiff2 e h2

/-- Helper: scanning the filtered group map reaches exactly the non-MP4
members of groups whose last-scanned MP4 member probes successfully. -/
theorem filtered_group_iff (files : List VPath) (probe : VPath → Option ℚ)
    (f : VPath) (Q : ℚ → ℚ → Prop) :
    (∃ k g m md fd, (k, g) ∈ ((Dedupe.groupVideoFiles files).filter
        (fun e => e.2.mp4.isSome && !(e.2.others.isEmpty))) ∧
      g.mp4 = some m ∧ probe m = some md ∧ f ∈ g.others ∧
      probe f = some fd ∧ Q md fd) ↔
    (f ∈ Dedupe.otherMembers files (Dedupe.groupKey f) ∧
     ∃ m md fd, Dedupe.lastMp4 files (Dedupe.groupKey f) = some m ∧
       probe m = some md ∧ probe f = some fd ∧ Q md fd) := by
  constructor
  · rintro ⟨k, g, m, md, fd, hmemF, hgmp4, hpm, hfin, hfp, hQ⟩
    have hmem : (k, g) ∈ Dedupe.groupVideoFiles files :=
      List.mem_of_mem_filter hmemF
    have hfind : Dedupe.findInGroups (Dedupe.groupVideoFiles files) k = some g :=
      find_of_mem_nodup _ k g (groupVideoFiles_keys_nodup files) hmem
    have hga : Dedupe.groupAt files k = some g := by
      rw [← groupVideoFiles_find]
      exact hfind
    have hothers : g.others = Dedupe.otherMembers files k := by
      have h2 := groupAt_others files k
      rw [hga] at h2
      simpa using h2
    have hmp4 : g.mp4 = Dedupe.lastMp4 files k := by
      have h2 := groupAt_mp4 files k
      rw [hga] at h2
      simpa using h2
    have hfin2 : f ∈ Dedupe.otherMembers files k := by
      rw [← hothers]
      exact hfin
    have hkey : Dedupe.groupKey f = k := by
      have h2 := List.mem_filter.mp hfin2
      exact (of_decide_eq_true h2.2).1
    subst hkey
    refine ⟨hfin2, m, md, fd, ?_, hpm, hfp, hQ⟩
    rw [← hmp4]
    exact hgmp4
  · rintro ⟨hfin, m, md, fd, hlast, hpm, hfp, hQ⟩
    cases hga : Dedupe.groupAt files (Dedupe.groupKey f) with
    | none =>
      have h2 := groupAt_others files (Dedupe.groupKey f)
      rw [hga] at h2
      simp [Dedupe.emptyGroup] at h2
      rw [h2] at hfin
      cases hfin
    | some g =>
      have hothers : g.others = Dedupe.otherMembers files (Dedupe.groupKey f) := by
        have h2 := groupAt_others files (Dedupe.groupKey f)
        rw [hga] at h2
        simpa using h2
      have hmp4 : g.mp4 = Dedupe.lastMp4 files (Dedupe.groupKey f) := by
        have h2 := groupAt_mp4 files (Dedupe.groupKey f)
        rw [hga] at h2
        simpa using h2
      have hfind : Dedupe.findInGroups (Dedupe.groupVideoFiles files)
          (Dedupe.groupKey f) = some g := by
        rw [groupVideoFiles_find]
        exact hga
      have hmem : (Dedupe.groupKey f, g) ∈ Dedupe.groupVideoFiles files := by
        unfold Dedupe.findInGroups at hfind
        cases hfe : List.find? (fun e => decide (e.1 = Dedupe.groupKey f))
            (Dedupe.groupVideoFiles files) with
        | none => rw [hfe] at hfind; cases hfind
        | some e =>
          rw [hfe] at hfind
          have he2 : e.2 = g := by simpa using hfind
          have hp0 := List.find?_some hfe
          have hp : e.1 = Dedupe.groupKey f := by simpa using hp0
          have hmem0 : e ∈ Dedupe.groupVideoFiles files :=
            List.mem_of_find?_eq_some hfe
          have hepair : e = (Dedupe.groupKey f, g) := by
            obtain ⟨e1, e2⟩ := e
            dsimp only at hp he2
            subst hp
            subst he2
            rfl
          rw [← hepair]
          exact hmem0
      have hmemF : (Dedupe.groupKey f, g) ∈ (Dedupe.groupVideoFiles files).filter
          (fun e => e.2.mp4.isSome && !(e.2.others.isEmpty)) := by
        refine List.mem_filter.mpr ⟨hmem, ?_⟩
        have h1 : g.mp4.isSome = true := by rw [hmp4, hlast]; rfl
        have h2 : g.others.isEmpty = false := by
          rw [hothers]
          cases hOM : Dedupe.otherMembers files (Dedupe.groupKey f) with
          | nil => rw [hOM] at hfin; cases hfin
          | cons a l => rfl
        simp [h1, h2]
      exact ⟨Dedupe.groupKey f, g, m, md, fd, hmemF,
        by rw [hmp4]; exact hlast, hpm, by rw [hothers]; exact hfin, hfp, hQ⟩

/-- Helper: full characterization of a completed duplicate-detector run:
a file is filed as a duplicate exactly when it is a non-MP4 member of
its group, the last-scanned MP4 member of that group probes to a
duration, the file probes to a duration, and the difference is within
tolerance; it is reported kept exactly when the difference exceeds the
tolerance; and every kept report records its duration delta. -/
theorem dedupe_candidate_char (files : List VPath) (probe : VPath → Option ℚ)
    (s : Bool) (r : List Dedupe.DupEntry × List Dedupe.KeptEntry) (f : VPath)
    (h : Dedupe.findDuplicates files probe s = .ok r) :
    ((∃ e ∈ r.1, e.path = f) ↔
      (f ∈ Dedupe.otherMembers files (Dedupe.groupKey f) ∧
       ∃ m md fd, Dedupe.lastMp4 files (Dedupe.groupKey f) = some m ∧
         probe m = some md ∧ probe f = some fd ∧
         Dedupe.mathAbs (md - fd) ≤ Dedupe.DURATION_TOLERANCE_SECONDS)) ∧
    ((∃ e ∈ r.2, e.path = f) ↔
      (f ∈ Dedupe.otherMembers files (Dedupe.groupKey f) ∧
       ∃ m md fd, Dedupe.lastMp4 files (Dedupe.groupKey f) = some m ∧
         probe m = some md ∧ probe f = some fd ∧
         Dedupe.DURATION_TOLERANCE_SECONDS < Dedupe.mathAbs (md - fd))) ∧
    (∀ e ∈ r.2, e.diff = Dedupe.mathAbs (e.mp4Duration - e.duration)) := by
  unfold Dedupe.findDuplicates at h
  obtain ⟨hd, hk, hdiff⟩ := processGroups_char probe s _ r f h
  refine ⟨?_, ?_, hdiff⟩
  · rw [hd]
    exact filtered_group_iff files probe f _
  · rw [hk]
    exact filtered_group_iff files probe f _

/-- Helper: every filed duplicate has a non-`.mp4` extension. -/
theorem findDuplicates_not_mp4 (files : List VPath) (probe : VPath → Option ℚ)
    (s : Bool) (r : List Dedupe.DupEntry × List Dedupe.KeptEntry)
    (h : Dedupe.findDuplicates files probe s = .ok r) :
    ∀ e ∈ r.1, jsToLowerCase e.path.ext ≠ ".mp4" := by
  intro e he
  obtain ⟨hd, _, _⟩ := dedupe_candidate_char files probe s r e.path h
  obtain ⟨hfin, _⟩ := hd.mp ⟨e, he, rfl⟩
  have h2 := List.mem_filter.mp hfin
  exact (of_decide_eq_true h2.2).2

/-- Helper: unlinking the duplicates leaves every other path unchanged. -/
theorem deleteDuplicates_preserves (u : VPath → Bool) (p : VPath) :
    ∀ (ds : List Dedupe.DupEntry) (fs : Dedupe.DFS),
      (∀ d ∈ ds, d.path ≠ p) →
      (Dedupe.deleteDuplicates u fs ds).1 p = fs p := by
  intro ds
  induction ds with
  | nil => intro fs _; rfl
  | cons d ds ih =>
    intro fs hne
    have hdp : ¬(p = d.path) := fun hh =>
      (hne d (List.mem_cons_self _ _)) hh.symm
    have htail : ∀ e ∈ ds, e.path ≠ p := fun e he =>
      hne e (List.mem_cons_of_mem _ he)
    simp only [Dedupe.deleteDuplicates]
    by_cases hc : ((fs d.path).isSome && u d.path) = true
    · simp only [hc, if_pos, if_true]
      rw [ih (Dedupe.updateDFS fs d.path none) (by
        intro e he
        exact htail e he)]
      simp [Dedupe.updateDFS, hdp]
    · simp only [hc, if_neg, if_false]
      exact ih fs htail

/-- C2 (amended): a completed run of the Duplicate Detector files a file
as a deletion candidate exactly when its group has at least one member
with the `.mp4` extension — the last-scanned one being the canonical MP4
— and the file is one of the other members, both durations probe
successfully, and the absolute difference is within the 1-second
tolerance; a member outside the tolerance is instead reported kept with
its duration delta recorded. -/
theorem c2_duplicate_candidate_iff (files : List VPath)
    (probe : VPath → Option ℚ) (s : Bool)
    (r : List Dedupe.DupEntry × List Dedupe.KeptEntry) (f : VPath)
    (h : Dedupe.findDuplicates files probe s = .ok r) :
    ((∃ e ∈ r.1, e.path = f) ↔
      (f ∈ Dedupe.otherMembers files (Dedupe.groupKey f) ∧
       ∃ m md fd, Dedupe.lastMp4 files (Dedupe.groupKey f) = some m ∧
         probe m = some md ∧ probe f = some fd ∧
         Dedupe.mathAbs (md - fd) ≤ Dedupe.DURATION_TOLERANCE_SECONDS)) ∧
    ((∃ e ∈ r.2, e.path = f) ↔
      (f ∈ Dedupe.otherMembers files (Dedupe.groupKey f) ∧
       ∃ m md fd, Dedupe.lastMp4 files (Dedupe.groupKey f) = some m ∧
         probe m = some md ∧ probe f = some fd ∧
         Dedupe.DURATION_TOLERANCE_SECONDS < Dedupe.mathAbs (md - fd))) ∧
    (∀ e ∈ r.2, e.diff = Dedupe.mathAbs (e.mp4Duration - e.duration)) :=
  dedupe_candidate_char files probe s r f h

/-- Helper: the duplicate detector on the counterexample inputs files the
`.mov` member as a duplicate of the last-scanned `.MP4` member. -/
theorem exFiles_run_eval :
    Dedupe.findDuplicates Dedupe.exFiles Dedupe.exProbe false =
      .ok ([⟨Dedupe.exC, Dedupe.exB, 10, 10⟩], []) := by
  have habs : Dedupe.mathAbs ((10 : ℚ) - 10) ≤ Dedupe.DURATION_TOLERANCE_SECONDS := by
    norm_num [Dedupe.mathAbs, Dedupe.DURATION_TOLERANCE_SECONDS]
  have hgr : (Dedupe.groupVideoFiles Dedupe.exFiles).filter
      (fun e => e.2.mp4.isSome && !(e.2.others.isEmpty)) =
      [(("d", "a"), ⟨some Dedupe.exB, [Dedupe.exC]⟩)] := by rfl
  have hpo : Dedupe.probeOthers Dedupe.exProbe false Dedupe.exB 10 [Dedupe.exC] =
      .ok ([⟨Dedupe.exC, Dedupe.exB, 10, 10⟩], []) := by
    simp only [Dedupe.probeOthers, Dedupe.exProbe]
    rw [if_pos habs]
  unfold Dedupe.findDuplicates
  rw [hgr]
  simp only [Dedupe.processGroups, Dedupe.exProbe]
  rw [hpo]
  rfl

/-- C2 counterexample: on a group with two `.mp4`-extension members the
code still files the `.mov` member as a deletion candidate, while the
claim as frozen requires exactly one MP4 member and therefore denies
candidacy. -/
theorem c2_exactly_one_mp4_counterexample :
    (Dedupe.findDuplicates Dedupe.exFiles Dedupe.exProbe false =
      .ok ([⟨Dedupe.exC, Dedupe.exB, 10, 10⟩], []) ∧
     ∃ e ∈ [(⟨Dedupe.exC, Dedupe.exB, 10, 10⟩ : Dedupe.DupEntry)],
       e.path = Dedupe.exC) ∧
    ¬ Dedupe.claimCandidate Dedupe.exFiles Dedupe.exProbe Dedupe.exC := by
  refine ⟨⟨exFiles_run_eval,
    ⟨⟨Dedupe.exC, Dedupe.exB, 10, 10⟩, by simp, rfl⟩⟩, ?_⟩
  intro hcl
  exact absurd hcl.1 (by decide)

/-- C10: every deletion candidate of a completed detector run has a
non-`.mp4` extension, so a file with a (case-insensitive) `.mp4`
extension present before the deletion phase is still present after it,
in dry-run mode and in normal mode alike. -/
theorem c10_mp4_files_survive (files : List VPath) (probe : VPath → Option ℚ)
    (s : Bool) (r : List Dedupe.DupEntry × List Dedupe.KeptEntry)
    (u : VPath → Bool) (fs : Dedupe.DFS) (p : VPath) (c : Nat)
    (h : Dedupe.findDuplicates files probe s = .ok r)
    (hp : jsToLowerCase p.ext = ".mp4")
    (hfs : fs p = some c) :
    (∀ e ∈ r.1, jsToLowerCase e.path.ext ≠ ".mp4") ∧
    Dedupe.dedupeApply true u fs r.1 p = some c ∧
    Dedupe.dedupeApply false u fs r.1 p = some c := by
  have hnot := findDuplicates_not_mp4 files probe s r h
  refine ⟨hnot, by simpa [Dedupe.dedupeApply] using hfs, ?_⟩
  have hne : ∀ d ∈ r.1, d.path ≠ p := by
    intro d hd heq
    exact hnot d hd (by rw [heq, hp])
  unfold Dedupe.dedupeApply
  rw [if_neg (by simp)]
  rw [deleteDuplicates_preserves u p r.1 fs hne]
  exact hfs

/-- Helper: the duplicate detector on the witness inputs files the `.mov`
member as a duplicate. -/
theorem exWitFiles_run_eval :
    Dedupe.findDuplicates Dedupe.exWitFiles Dedupe.exProbe false =
      .ok ([⟨Dedupe.exO, Dedupe.exM, 10, 10⟩], []) := by
  have habs : Dedupe.mathAbs ((10 : ℚ) - 10) ≤ Dedupe.DURATION_TOLERANCE_SECONDS := by
    norm_num [Dedupe.mathAbs, Dedupe.DURATION_TOLERANCE_SECONDS]
  have hgr : (Dedupe.groupVideoFiles Dedupe.exWitFiles).filter
      (fun e => e.2.mp4.isSome && !(e.2.others.isEmpty)) =
      [(("d", "v"), ⟨some Dedupe.exM, [Dedupe.exO]⟩)] := by rfl
  have hpo : Dedupe.probeOthers Dedupe.exProbe false Dedupe.exM 10 [Dedupe.exO] =
      .ok ([⟨Dedupe.exO, Dedupe.exM, 10, 10⟩], []) := by
    simp only [Dedupe.probeOthers, Dedupe.exProbe]
    rw [if_pos habs]
  unfold Dedupe.findDuplicates
  rw [hgr]
  simp only [Dedupe.processGroups, Dedupe.exProbe]
  rw [hpo]
  rfl

/-- Witness for C2 at the concrete witness inputs. -/
theorem c2_duplicate_candidate_iff_witness :
    ((∃ e ∈ ([⟨Dedupe.exO, Dedupe.exM, 10, 10⟩] : List Dedupe.DupEntry),
        e.path = Dedupe.exO) ↔
      (Dedupe.exO ∈ Dedupe.otherMembers Dedupe.exWitFiles
          (Dedupe.groupKey Dedupe.exO) ∧
       ∃ m md fd, Dedupe.lastMp4 Dedupe.exWitFiles
           (Dedupe.groupKey Dedupe.exO) = some m ∧
         Dedupe.exProbe m = some md ∧ Dedupe.exProbe Dedupe.exO = some fd ∧
         Dedupe.mathAbs (md - fd) ≤ Dedupe.DURATION_TOLERANCE_SECONDS)) ∧
    ((∃ e ∈ ([] : List Dedupe.KeptEntry), e.path = Dedupe.exO) ↔
      (Dedupe.exO ∈ Dedupe.otherMembers Dedupe.exWitFiles
          (Dedupe.groupKey Dedupe.exO) ∧
       ∃ m md fd, Dedupe.lastMp4 Dedupe.exWitFiles
           (Dedupe.groupKey Dedupe.exO) = some m ∧
         Dedupe.exProbe m = some md ∧ Dedupe.exProbe Dedupe.exO = some fd ∧
         Dedupe.DURATION_TOLERANCE_SECONDS < Dedupe.mathAbs (md - fd))) ∧
    (∀ e ∈ ([] : List Dedupe.KeptEntry),
      e.diff = Dedupe.mathAbs (e.mp4Duration - e.duration)) :=
  c2_duplicate_candidate_iff Dedupe.exWitFiles Dedupe.exProbe false
    ([⟨Dedupe.exO, Dedupe.exM, 10, 10⟩], []) Dedupe.exO exWitFiles_run_eval

/-- Witness for C10 at the concrete witness inputs. -/
theorem c10_mp4_files_survive_witness :
    (∀ e ∈ ([⟨Dedupe.exO, Dedupe.exM, 10, 10⟩] : List Dedupe.DupEntry),
      jsToLowerCase e.path.ext ≠ ".mp4") ∧
    Dedupe.dedupeApply true (fun _ => true) Dedupe.exWitFs
      [⟨Dedupe.exO, Dedupe.exM, 10, 10⟩] Dedupe.exM = some 5 ∧
    Dedupe.dedupeApply false (fun _ => true) Dedupe.exWitFs
      [⟨Dedupe.exO, Dedupe.exM, 10, 10⟩] Dedupe.exM = some 5 :=
  c10_mp4_files_survive Dedupe.exWitFiles Dedupe.exProbe false
    ([⟨Dedupe.exO, Dedupe.exM, 10, 10⟩], []) (fun _ => true) Dedupe.exWitFs
    Dedupe.exM 5 exWitFiles_run_eval (by decide) (by decide)
